import Mathlib

/-!
Shallow embedding of the `db-UTF8-MB3-to-MB4` charset-conversion tool
(`convert.py`, `convert/utf8mb4converter.py`, `convert/statistics.py`,
`convert/validation.py`).

The tool talks to a live MariaDB instance; here the database is modelled as an
explicit value (`Database`: name, charset, collation and a list of tables, each
with its columns), the schema-introspection queries become pure reads of that
value, and executing an ALTER statement is modelled by an oracle
`ok : String → Bool` telling whether the external server accepts the statement:
on success the statement's documented effect is applied to the state, on
failure the state is unchanged and the offending statement is logged (the
Python code catches `mariadb.Error`, logs the error together with the query and
continues).  Every conversion operation returns a `ConvOut`: the new database
state, the list of executed DDL statements in order, and the list of offending
statements that were logged as failed.
-/

set_option autoImplicit false

namespace DbConvert


/-- One row of `information_schema.COLUMNS` as fetched by
`UTF8MB4Converter.get_columns_of_table`: keys `name` (COLUMN_NAME), `type`
(DATA_TYPE), `ctype` (COLUMN_TYPE), `charset` (CHARACTER_SET_NAME, SQL NULL for
non-text columns), `collation` (COLLATION_NAME), `nullable` (IS_NULLABLE,
`"YES"`/`"NO"`) and `dvalue` (COLUMN_DEFAULT). -/
structure Column where
  name : String
  type : String
  ctype : String
  charset : Option String
  collation : Option String
  nullable : String
  dvalue : Option String
deriving DecidableEq, Repr

/-- A table of the connected database: its name, default charset/collation
(as read through `get_charset_table`) and its columns. -/
structure Table where
  name : String
  charset : String
  collation : String
  columns : List Column
deriving DecidableEq, Repr

/-- The connected database: its name (`self.db`), default charset/collation
(as read through `get_charset_db`) and its tables. -/
structure Database where
  name : String
  charset : String
  collation : String
  tables : List Table
deriving DecidableEq, Repr

/-- `DEFAULT_CHARSET` from `utf8mb4converter.py`. -/
def DEFAULT_CHARSET : String := "utf8mb4"

/-- `DEFAULT_COLLATION` from `utf8mb4converter.py`. -/
def DEFAULT_COLLATION : String := "utf8mb4_unicode_520_ci"

/-- `get_tables`: `SHOW TABLES FROM {db}` — the names of all tables. -/
def get_tables (st : Database) : List String :=
  st.tables.map (·.name)

/-- Resolution of a table name against the catalog (the `WHERE ... table_name =
'{table}'` filter of the introspection queries). -/
def findTable (st : Database) (table : String) : Option Table :=
  st.tables.find? (·.name == table)

/-- `get_charset_db`: charset and collation of the database itself. -/
def get_charset_db (st : Database) : String × String :=
  (st.charset, st.collation)

/-- `get_charset_table`: charset and collation of one table.  (For a name not
in the catalog the Python code would fail destructuring an empty result; that
path is unreachable because every caller passes a name from `get_tables`.) -/
def get_charset_table (st : Database) (table : String) : Option (String × String) :=
  (findTable st table).map fun t => (t.charset, t.collation)

/-- `get_columns_of_table`: the column rows of one table (an unknown table name
yields an empty result set, hence `[]`). -/
def get_columns_of_table (st : Database) (table : String) : List Column :=
  match findTable st table with
  | some t => t.columns
  | none => []

/-- Python truthiness of `column["charset"]` (an SQL NULL or an empty string is
falsy): the guard `if not column["charset"]` of `convert_charset_single_column`. -/
def pyFalsy : Option String → Bool
  | none => true
  | some s => s.isEmpty

/-- Rendering of a driver value inside an f-string (`None` prints as `"None"`). -/
def pyStr : Option String → String
  | none => "None"
  | some s => s

/-- The query of `convert_charset_db`:
`f"ALTER DATABASE {self.db} CHARACTER SET = {charset} COLLATE = {collation}"`. -/
def dbQuery (db cs coll : String) : String :=
  "ALTER DATABASE " ++ db ++ " CHARACTER SET = " ++ cs ++ " COLLATE = " ++ coll

/-- The query of `convert_charset_single_table`:
`f"ALTER TABLE {table} CONVERT TO CHARACTER SET {charset} COLLATE {collation}"`. -/
def tableQuery (table cs coll : String) : String :=
  "ALTER TABLE " ++ table ++ " CONVERT TO CHARACTER SET " ++ cs ++ " COLLATE " ++ coll

/-- The list of data types accepted by the column eligibility filter
(`["char", "varchar", "text", "longtext"]` in `convert_charset_single_column`). -/
def ELIGIBLE_TYPES : List String := ["char", "varchar", "text", "longtext"]

/-- The query of `convert_charset_single_column`, a `" ".join` of three chunks:
the CHANGE clause, the type/charset/collation clause, and either `NULL` or
`NOT NULL DEFAULT {dvalue}` depending on `column["nullable"] == "YES"`. -/
def columnQuery (table : String) (column : Column) (cs coll : String) : String :=
  String.intercalate " "
    ["ALTER TABLE " ++ table ++ " CHANGE " ++ column.name ++ " " ++ column.name,
     column.ctype ++ " CHARACTER SET " ++ cs ++ " COLLATE " ++ coll,
     if column.nullable = "YES" then "NULL" else "NOT NULL DEFAULT " ++ pyStr column.dvalue]

/-- Result of a conversion operation: the database state afterwards, the DDL
statements handed to `cursor.execute` in order, and the offending statements
logged after a caught `mariadb.Error`. -/
structure ConvOut where
  st : Database
  queries : List String
  errors : List String
deriving DecidableEq, Repr

/-- Effect on the catalog of a successful
`ALTER DATABASE … CHARACTER SET = … COLLATE = …`. -/
def setDbCharset (st : Database) (cs coll : String) : Database :=
  { st with charset := cs, collation := coll }

/-- Effect on the catalog of a successful
`ALTER TABLE … CONVERT TO CHARACTER SET … COLLATE …` on the table's own
default charset/collation. -/
def setTableCharset (st : Database) (table cs coll : String) : Database :=
  { st with tables := st.tables.map fun t =>
      if t.name = table then { t with charset := cs, collation := coll } else t }

/-- Effect on the catalog of a successful column `ALTER TABLE … CHANGE …`
on the column's charset/collation. -/
def setColumnCharset (st : Database) (table colName cs coll : String) : Database :=
  { st with tables := st.tables.map fun t =>
      if t.name = table then
        { t with columns := t.columns.map fun c =>
            if c.name = colName then { c with charset := some cs, collation := some coll } else c }
      else t }

/-- `UTF8MB4Converter.convert_charset_db`: read the database charset, return
without DDL if it already equals the target, otherwise execute the ALTER
DATABASE statement, logging the statement if the server rejects it. -/
def convert_charset_db (ok : String → Bool) (cs coll : String) (st : Database) : ConvOut :=
  if (get_charset_db st).1 = cs then ⟨st, [], []⟩
  else
    let query := dbQuery st.name cs coll
    if ok query then ⟨setDbCharset st cs coll, [query], []⟩
    else ⟨st, [query], [query]⟩

/-- `UTF8MB4Converter.convert_charset_single_table`: read the table charset,
return without DDL if it already equals the target, otherwise execute the
ALTER TABLE … CONVERT TO statement, logging it on failure.  (The `none` branch
is unreachable from the batch operations, whose names come from `get_tables`;
on it the Python code would fail destructuring an empty result.) -/
def convert_charset_single_table (ok : String → Bool) (table cs coll : String)
    (st : Database) : ConvOut :=
  match findTable st table with
  | none => ⟨st, [], []⟩
  | some t =>
    if t.charset = cs then ⟨st, [], []⟩
    else
      let query := tableQuery table cs coll
      if ok query then ⟨setTableCharset st table cs coll, [query], []⟩
      else ⟨st, [query], [query]⟩

/-- `UTF8MB4Converter.convert_charset_single_column`: skip when the column's
charset is falsy, when its data type is not one of `ELIGIBLE_TYPES`, or when
its charset already equals the target; otherwise execute the CHANGE statement,
logging it on failure. -/
def convert_charset_single_column (ok : String → Bool) (column : Column)
    (table cs coll : String) (st : Database) : ConvOut :=
  if pyFalsy column.charset then ⟨st, [], []⟩
  else if ¬ column.type ∈ ELIGIBLE_TYPES then ⟨st, [], []⟩
  else if column.charset = some cs then ⟨st, [], []⟩
  else
    let query := columnQuery table column cs coll
    if ok query then ⟨setColumnCharset st table column.name cs coll, [query], []⟩
    else ⟨st, [query], [query]⟩

/-- Sequencing of conversion steps: thread the state, concatenate the executed
statements and the logged failures. -/
def seqConv (acc : ConvOut) (f : Database → ConvOut) : ConvOut :=
  let r := f acc.st
  ⟨r.st, acc.queries ++ r.queries, acc.errors ++ r.errors⟩

/-- A `for x in xs:` loop applying one conversion step per element. -/
def runUnits {α : Type} (g : α → Database → ConvOut) (xs : List α) (st : Database) : ConvOut :=
  xs.foldl (fun acc x => seqConv acc (g x)) ⟨st, [], []⟩

/-- `UTF8MB4Converter.convert_charset_all_tables`: iterate
`convert_charset_single_table` over `get_tables`. -/
def convert_charset_all_tables (ok : String → Bool) (cs coll : String) (st : Database) : ConvOut :=
  runUnits (fun table => convert_charset_single_table ok table cs coll) (get_tables st) st

/-- `UTF8MB4Converter.convert_charset_all_columns_single_table`: read the column
rows once, then iterate `convert_charset_single_column` over them. -/
def convert_charset_all_columns_single_table (ok : String → Bool) (table cs coll : String)
    (st : Database) : ConvOut :=
  runUnits (fun column => convert_charset_single_column ok column table cs coll)
    (get_columns_of_table st table) st

/-- `UTF8MB4Converter.convert_charset_all_columns_all_tables`: iterate the
per-table column conversion over `get_tables`. -/
def convert_charset_all_columns_all_tables (ok : String → Bool) (cs coll : String)
    (st : Database) : ConvOut :=
  runUnits (fun table => convert_charset_all_columns_single_table ok table cs coll)
    (get_tables st) st

/-- Modelled from the spec: `convert_charset_all` — the Charset Converter's full
conversion `convertAll` — is called by the default convert mode
(`convert.py`, `main`) and by the validator (`validation.py`,
`convert_validate`) but its definition is absent from the sources.  Per the
spec (§4.2, §4.4, §1) it applies the per-unit conversion algorithm to the
database itself, then to every table, then to every column of every table, in
database → tables → columns order. -/
def convert_charset_all (ok : String → Bool) (cs coll : String) (st : Database) : ConvOut :=
  seqConv
    (seqConv (convert_charset_db ok cs coll st) (convert_charset_all_tables ok cs coll))
    (convert_charset_all_columns_all_tables ok cs coll)

/-- A catalog is well formed when table names are distinct and the column names
within each table are distinct (guaranteed by the database engine). -/
def wellFormed (st : Database) : Prop :=
  (st.tables.map Table.name).Nodup ∧ ∀ t ∈ st.tables, (t.columns.map Column.name).Nodup

/-- The skip condition of `convert_charset_single_column` (first three guards). -/
def skipCol (cs : String) (column : Column) : Bool :=
  pyFalsy column.charset || !(ELIGIBLE_TYPES.contains column.type) || column.charset == some cs

/-- DDL issued for a single table by the per-unit table conversion. -/
def tableUnitTrace (cs coll : String) (t : Table) : List String :=
  if t.charset = cs then [] else [tableQuery t.name cs coll]

/-- DDL issued for a single column row by the per-unit column conversion. -/
def columnUnitTrace (cs coll : String) (table : String) (c : Column) : List String :=
  if skipCol cs c then [] else [columnQuery table c cs coll]

/-- Adding a fresh head table to the state. -/
def consTable (t : Table) (st : Database) : Database :=
  { st with tables := t :: st.tables }

/-- Observation preserved by table-level conversion: database identity and the
name/columns pair of every table. -/
def projTables (st : Database) : String × String × String × List (String × List Column) :=
  (st.name, st.charset, st.collation, st.tables.map fun t => (t.name, t.columns))

/-- Observation preserved by column-level conversion: database identity and the
name/charset/collation/column-names of every table. -/
def projColumns (st : Database) :
    String × String × String × List (String × String × String × List String) :=
  (st.name, st.charset, st.collation,
    st.tables.map fun t => (t.name, t.charset, t.collation, t.columns.map Column.name))

/-! ### Characterization of the table pass -/

/-- Value of a table after the per-unit table conversion visited it. -/
def tableAfter (ok : String → Bool) (cs coll : String) (t : Table) : Table :=
  if t.charset = cs then t
  else if ok (tableQuery t.name cs coll) then { t with charset := cs, collation := coll } else t

/-! ### Characterization of the column pass -/

/-- Column list of a table after a successful column CHANGE targeting `pname`. -/
def applyColConv (cs coll pname : String) (cols : List Column) : List Column :=
  cols.map fun c =>
    if c.name = pname then { c with charset := some cs, collation := some coll } else c

/-! ### The full conversion -/

/-- DDL issued for the database itself by the per-unit database conversion. -/
def dbUnitTrace (cs coll : String) (st : Database) : List String :=
  if st.charset = cs then [] else [dbQuery st.name cs coll]

/-- A state on which the full conversion has nothing left to do: database
charset is the target, every table charset is the target, and every column is
skipped by the eligibility filter. -/
def converged (cs : String) (st : Database) : Prop :=
  st.charset = cs ∧ (∀ t ∈ st.tables, t.charset = cs) ∧
    ∀ t ∈ st.tables, ∀ c ∈ t.columns, skipCol cs c = true

/-! ### Statistics (`convert/statistics.py`) -/

/-- `defaultdict(int)` increment `d[key] += 1`, keeping first-insertion order. -/
def hincr {α : Type} [DecidableEq α] : List (α × Nat) → α → List (α × Nat)
  | [], a => [(a, 1)]
  | (k, v) :: t, a => if k = a then (k, v + 1) :: t else (k, v) :: hincr t a

/-- `defaultdict(int)` read `d[key]` (0 when the key is absent). -/
def hget {α : Type} [DecidableEq α] : List (α × Nat) → α → Nat
  | [], _ => 0
  | (k, v) :: t, a => if k = a then v else hget t a

/-- Sum of all counter values of a histogram. -/
def sumVals {α : Type} (h : List (α × Nat)) : Nat := (h.map (·.2)).sum

/-- `self.dbcon.get_charset_table(table)["charset"]` as used by `update_stats`.
(The `none` fallback is unreachable there: the names come from `get_tables`.) -/
def tableCharsetByName (st : Database) (table : String) : String :=
  match get_charset_table st table with
  | some p => p.1
  | none => ""

/-- The `for table in tables:` loop of `Statistics.update_stats`, threading the
column count and the two charset histograms. -/
def statsLoop (st : Database) :
    List String → Nat → List (String × Nat) → List (Option String × Nat) →
      Nat × List (String × Nat) × List (Option String × Nat)
  | [], cc, ht, hc => (cc, ht, hc)
  | table :: rest, cc, ht, hc =>
    statsLoop st rest (cc + (get_columns_of_table st table).length)
      (hincr ht (tableCharsetByName st table))
      ((get_columns_of_table st table).foldl (fun h col => hincr h col.charset) hc)

/-- The `data` dictionary stored by `Statistics.update_stats`: the `count`,
`charset` and `converted` sections flattened into one record. -/
structure StatData where
  countTables : Nat
  countColumns : Nat
  charsetTables : List (String × Nat)
  charsetColumns : List (Option String × Nat)
  convertedTables : Nat
  missingTables : Nat
  convertedColumns : Nat
  missingColumns : Nat
deriving DecidableEq, Repr

/-- `Statistics.update_stats`: single aggregation pass over all tables and
columns, then the derived converted/missing counters (the column histogram is
keyed by `Option String` because `column["charset"]` may be SQL NULL). -/
def update_stats (st : Database) : StatData :=
  let tables := get_tables st
  let r := statsLoop st tables 0 [] []
  { countTables := tables.length
    countColumns := r.1
    charsetTables := r.2.1
    charsetColumns := r.2.2
    convertedTables := hget r.2.1 DEFAULT_CHARSET
    missingTables := tables.length - hget r.2.1 DEFAULT_CHARSET
    convertedColumns := hget r.2.2 (some DEFAULT_CHARSET)
    missingColumns := r.1 - hget r.2.2 (some DEFAULT_CHARSET) - hget r.2.2 none }

/-! ### Validation (`convert/validation.py`) -/

/-- A value of one `information_schema.COLUMNS` catalog field. -/
inductive FieldVal
  | str (v : String)
  | int (v : Int)
  | null
deriving DecidableEq, Repr

/-- Python `dict` lookup by key (first binding wins; bindings are unique in any
dict produced by the code). -/
def alookup {β : Type} (l : List (String × β)) (k : String) : Option β :=
  (l.find? (·.1 == k)).map (·.2)

/-- The full catalog record of one column, keyed by field name. -/
abbrev ColRecord := List (String × FieldVal)

/-- One table's snapshot entry: column name → full catalog record. -/
abbrev TabState := List (String × ColRecord)

/-- `Validation._get_state`'s result: table name → column name → record. -/
abbrev Snapshot := List (String × TabState)

/-- Errors observable from `compare_states`: the explicitly raised
`MissingStateException` (with its message) and Python's `KeyError` from a
failed dict lookup. -/
inductive VError
  | missingState (msg : String)
  | keyError
deriving DecidableEq, Repr

/-- `Validation._get_differences`: walk the keys of record `a`, skip the three
fields expected to change, and collect `{key: {"Before": a[key], "After":
b[key]}}` for every other key whose values differ; `b[key]` on a missing key
is a `KeyError`. -/
def _get_differences : ColRecord → ColRecord → Except VError (List (String × FieldVal × FieldVal))
  | [], _ => .ok []
  | (key, va) :: rest, b =>
    if key = "CHARACTER_SET_NAME" then _get_differences rest b
    else if key = "COLLATION_NAME" then _get_differences rest b
    else if key = "CHARACTER_OCTET_LENGTH" then _get_differences rest b
    else
      match alookup b key with
      | none => .error .keyError
      | some vb =>
        match _get_differences rest b with
        | .error e => .error e
        | .ok d => .ok (if va ≠ vb then (key, va, vb) :: d else d)

/-- The three fields `_get_differences` ignores. -/
def IGNORED_FIELDS : List String :=
  ["CHARACTER_SET_NAME", "COLLATION_NAME", "CHARACTER_OCTET_LENGTH"]

/-- The inner `for column in a.keys():` loop of `compare_states` on one table:
look up each start column in the end table's dict (`KeyError` if absent), diff
the records, bump the unaltered/altered counters and record nonempty diffs. -/
def compareColumns (b : TabState) :
    TabState → Except VError (Nat × Nat × List (String × List (String × FieldVal × FieldVal)))
  | [] => .ok (0, 0, [])
  | (column, arec) :: rest =>
    match alookup b column with
    | none => .error .keyError
    | some brec =>
      match _get_differences arec brec with
      | .error e => .error e
      | .ok comp =>
        match compareColumns b rest with
        | .error e => .error e
        | .ok (u, alt, det) =>
          .ok (if comp.isEmpty then (u + 1, alt, det) else (u, alt + 1, (column, comp) :: det))

instance instDEqColDet : DecidableEq (String × List (String × FieldVal × FieldVal)) :=
  inferInstance

instance instDEqTabDet :
    DecidableEq (String × List (String × List (String × FieldVal × FieldVal))) :=
  inferInstance

/-- `details`: table name → column name → changed-field diffs. -/
abbrev Details := List (String × List (String × List (String × FieldVal × FieldVal)))

/-- The outer `for table in self.start.keys():` loop of `compare_states`.  The
end snapshot is a `defaultdict(dict)`, so a table missing from it yields the
empty dict rather than an error; `details[table]` is only materialized when the
table has at least one altered column. -/
def compareTables (e : Snapshot) : Snapshot → Except VError (Nat × Nat × Details)
  | [] => .ok (0, 0, [])
  | (table, a) :: rest =>
    match compareColumns ((alookup e table).getD []) a with
    | .error er => .error er
    | .ok (u, alt, det) =>
      match compareTables e rest with
      | .error er => .error er
      | .ok (u2, alt2, allDet) =>
        .ok (u + u2, alt + alt2, if det.isEmpty then allDet else (table, det) :: allDet)

/-- The dict returned by `Validation.compare_states`: `summary` counters and
nested `details`. -/
structure CompResult where
  unaltered : Nat
  altered : Nat
  details : Details
deriving DecidableEq, Repr

/-- `Validation.compare_states`: raise `MissingStateException` (with the exact
message) when either snapshot attribute is still `None`, otherwise diff the
snapshots table by table, column by column. -/
def compare_states (startState endState : Option Snapshot) : Except VError CompResult :=
  match startState with
  | none => .error (.missingState "No start state stored. Make sure to call generate_start_state")
  | some s =>
    match endState with
    | none => .error (.missingState "No end state stored. Make sure to call generate_end_state")
    | some e =>
      match compareTables e s with
      | .error er => .error er
      | .ok (u, alt, det) => .ok ⟨u, alt, det⟩

/-- A catalog field value as stored in a snapshot record (SQL NULL → `null`). -/
def optFV : Option String → FieldVal
  | none => .null
  | some s => .str s

/-- The full catalog record of a modelled column, as fetched by
`Validation._get_columns_of_table` (`SELECT * FROM information_schema.COLUMNS`);
the modelled state exposes these catalog fields. -/
def recordOfColumn (c : Column) : ColRecord :=
  [("COLUMN_NAME", .str c.name), ("DATA_TYPE", .str c.type), ("COLUMN_TYPE", .str c.ctype),
   ("CHARACTER_SET_NAME", optFV c.charset), ("COLLATION_NAME", optFV c.collation),
   ("IS_NULLABLE", .str c.nullable), ("COLUMN_DEFAULT", optFV c.dvalue)]

/-- `Validation._get_state`: per table, per column, the full record.  The state
is a `defaultdict(dict)` whose table keys are only materialized when a column
row is inserted, hence the filter dropping column-less tables. -/
def _get_state (st : Database) : Snapshot :=
  (st.tables.map fun t => (t.name, t.columns.map fun c => (c.name, recordOfColumn c))).filter
    fun p => !p.2.isEmpty

/-- `Validation.convert_validate`: snapshot, full conversion, snapshot,
comparison. -/
def convert_validate (ok : String → Bool) (st : Database) :
    ConvOut × Except VError CompResult :=
  let startState := _get_state st
  let r := convert_charset_all ok DEFAULT_CHARSET DEFAULT_COLLATION st
  let endState := _get_state r.st
  (r, compare_states (some startState) (some endState))

/-- The mutually exclusive modes of `convert.py`. -/
inductive Mode
  | statistics
  | validate
  | convert

/-- The DDL statements issued by `convert.py`'s `main` in each mode: the
statistics mode only reads, the validation mode converts inside
`convert_validate`, and the default mode calls `convert_charset_all`, all with
the default target charset and collation. -/
def main (mode : Mode) (ok : String → Bool) (st : Database) : List String :=
  match mode with
  | .statistics => []
  | .validate => (convert_validate ok st).1.queries
  | .convert => (convert_charset_all ok DEFAULT_CHARSET DEFAULT_COLLATION st).queries

/-- The diff a successful `compare_states` computes for one start column. -/
def colDiffOf (b : TabState) (p : String × ColRecord) :
    List (String × FieldVal × FieldVal) :=
  match alookup b p.1 with
  | some brec =>
    match _get_differences p.2 brec with
    | .ok d => d
    | .error _ => []
  | none => []

/-- An unconverted sample database used for concrete evaluations. -/
def exampleDb : Database :=
  { name := "shop", charset := "latin1", collation := "latin1_swedish_ci",
    tables :=
      [{ name := "A", charset := "latin1", collation := "latin1_swedish_ci",
         columns :=
           [⟨"id", "int", "int(11)", none, none, "NO", none⟩,
            ⟨"title", "varchar", "varchar(255)", some "latin1", some "latin1_swedish_ci",
              "YES", none⟩] },
       { name := "B", charset := "utf8mb4", collation := "utf8mb4_unicode_520_ci",
         columns :=
           [⟨"body", "text", "text", some "latin1", some "latin1_swedish_ci", "NO",
              some "x"⟩] },
       { name := "C", charset := "latin1", collation := "latin1_swedish_ci",
         columns :=
           [⟨"note", "varchar", "varchar(64)", some "latin1", some "latin1_swedish_ci",
              "YES", none⟩] }] }

/-- The spec's synthetic eligibility-filter input: an `int` column carrying a
(contradictory) non-null charset. -/
def colInt : Column := ⟨"n", "int", "int(11)", some "latin1", some "latin1_swedish_ci", "NO", none⟩

/-- The multiset of column rows visited by the statistics aggregation pass. -/
def allColumns (st : Database) : List Column :=
  ((get_tables st).map (get_columns_of_table st)).flatten

/-- The spec's statistics scenario: 3 tables with charsets
{target, target, other} and 5 columns — 1 with null charset, 2 with the target
charset, 2 with another charset. -/
def statsDb : Database :=
  { name := "stats", charset := "utf8mb4", collation := "utf8mb4_unicode_520_ci",
    tables :=
      [{ name := "T1", charset := "utf8mb4", collation := "utf8mb4_unicode_520_ci",
         columns :=
           [⟨"c1", "int", "int(11)", none, none, "YES", none⟩,
            ⟨"c2", "varchar", "varchar(10)", some "utf8mb4", some "utf8mb4_unicode_520_ci",
              "YES", none⟩] },
       { name := "T2", charset := "utf8mb4", collation := "utf8mb4_unicode_520_ci",
         columns :=
           [⟨"c3", "varchar", "varchar(10)", some "utf8mb4", some "utf8mb4_unicode_520_ci",
              "YES", none⟩,
            ⟨"c4", "varchar", "varchar(10)", some "latin1", some "latin1_swedish_ci",
              "YES", none⟩] },
       { name := "T3", charset := "latin1", collation := "latin1_swedish_ci",
         columns :=
           [⟨"c5", "text", "text", some "latin1", some "latin1_swedish_ci", "NO",
              some "x"⟩] }] }

/-- The spec's before-record for the validation diff example. -/
def recBefore : ColRecord :=
  [("CHARACTER_SET_NAME", .str "latin1"), ("COLLATION_NAME", .str "latin1_swedish_ci"),
   ("CHARACTER_OCTET_LENGTH", .int 255), ("COLUMN_DEFAULT", .str "x")]

/-- The spec's after-record: only the three expected fields changed. -/
def recAfter : ColRecord :=
  [("CHARACTER_SET_NAME", .str "utf8mb4"), ("COLLATION_NAME", .str "utf8mb4_unicode_520_ci"),
   ("CHARACTER_OCTET_LENGTH", .int 1020), ("COLUMN_DEFAULT", .str "x")]

/-- An after-record in which a non-ignored field also changed. -/
def recAfter2 : ColRecord :=
  [("CHARACTER_SET_NAME", .str "utf8mb4"), ("COLLATION_NAME", .str "utf8mb4_unicode_520_ci"),
   ("CHARACTER_OCTET_LENGTH", .int 1020), ("COLUMN_DEFAULT", .str "y")]

/-- Start snapshot for the C10 witness. -/
def snapStart : Snapshot := [("T", [("c", recBefore)])]

/-- End snapshot containing the start column. -/
def snapEndOk : Snapshot := [("T", [("c", recAfter)])]

/-- End snapshot whose table exists but lost the column. -/
def snapEndMissing : Snapshot := [("T", [])]

/-! ### Theorems -/

/-! ### Generic lemmas about the loop combinator -/

theorem seqConv_def (acc : ConvOut) (f : Database → ConvOut) :
    seqConv acc f = ⟨(f acc.st).st, acc.queries ++ (f acc.st).queries,
      acc.errors ++ (f acc.st).errors⟩ := rfl

theorem runUnits_nil {α : Type} (g : α → Database → ConvOut) (st : Database) :
    runUnits g [] st = ⟨st, [], []⟩ := rfl

theorem foldl_seqConv {α : Type} (g : α → Database → ConvOut) (xs : List α) :
    ∀ acc : ConvOut, xs.foldl (fun a x => seqConv a (g x)) acc =
      ⟨(runUnits g xs acc.st).st, acc.queries ++ (runUnits g xs acc.st).queries,
        acc.errors ++ (runUnits g xs acc.st).errors⟩ := by
  induction xs with
  | nil => intro acc; simp [runUnits_nil]
  | cons x xs ih =>
    intro acc
    show (xs.foldl (fun a x => seqConv a (g x)) (seqConv acc (g x))) = _
    rw [ih]
    have hr : runUnits g (x :: xs) acc.st =
        (xs.foldl (fun a x => seqConv a (g x)) (seqConv ⟨acc.st, [], []⟩ (g x))) := rfl
    rw [hr, ih]
    simp [seqConv]

theorem runUnits_cons {α : Type} (g : α → Database → ConvOut) (x : α) (xs : List α)
    (st : Database) :
    runUnits g (x :: xs) st =
      ⟨(runUnits g xs (g x st).st).st,
        (g x st).queries ++ (runUnits g xs (g x st).st).queries,
        (g x st).errors ++ (runUnits g xs (g x st).st).errors⟩ := by
  show (xs.foldl (fun a x => seqConv a (g x)) (seqConv ⟨st, [], []⟩ (g x))) = _
  rw [foldl_seqConv]
  simp [seqConv]

/-- Any state observation preserved by every unit step is preserved by the loop. -/
theorem runUnits_proj {α X : Type} (proj : Database → X) (g : α → Database → ConvOut)
    (xs : List α) (h : ∀ x ∈ xs, ∀ st, proj (g x st).st = proj st) :
    ∀ st, proj (runUnits g xs st).st = proj st := by
  induction xs with
  | nil => intro st; rfl
  | cons x xs ih =>
    intro st
    rw [runUnits_cons]
    show proj (runUnits g xs (g x st).st).st = proj st
    rw [ih (fun y hy => h y (List.mem_cons_of_mem x hy)), h x (List.mem_cons_self x xs)]

/-- If every unit step leaves the state untouched and issues nothing, so does
the loop. -/
theorem runUnits_noop {α : Type} (g : α → Database → ConvOut) (xs : List α) (st : Database)
    (h : ∀ x ∈ xs, g x st = ⟨st, [], []⟩) :
    runUnits g xs st = ⟨st, [], []⟩ := by
  induction xs with
  | nil => rfl
  | cons x xs ih =>
    rw [runUnits_cons, h x (List.mem_cons_self x xs)]
    simp [ih (fun y hy => h y (List.mem_cons_of_mem x hy))]

/-- If every unit step commutes with `consTable t`, so does the loop. -/
theorem runUnits_frame {α : Type} (g : α → Database → ConvOut) (t : Table) (xs : List α)
    (hg : ∀ x ∈ xs, ∀ st, g x (consTable t st) =
      ⟨consTable t (g x st).st, (g x st).queries, (g x st).errors⟩) :
    ∀ st, runUnits g xs (consTable t st) =
      ⟨consTable t (runUnits g xs st).st, (runUnits g xs st).queries,
        (runUnits g xs st).errors⟩ := by
  induction xs with
  | nil => intro st; rfl
  | cons x xs ih =>
    intro st
    rw [runUnits_cons, hg x (List.mem_cons_self x xs)]
    have := ih (fun y hy => hg y (List.mem_cons_of_mem x hy)) (g x st).st
    rw [runUnits_cons]
    simp_all

/-! ### Frame and preservation lemmas for the conversion operations -/

theorem findTable_consTable (t : Table) (st : Database) (table : String) (h : t.name ≠ table) :
    findTable (consTable t st) table = findTable st table := by
  simp [findTable, consTable, List.find?_cons, h]

theorem get_columns_consTable (t : Table) (st : Database) (table : String) (h : t.name ≠ table) :
    get_columns_of_table (consTable t st) table = get_columns_of_table st table := by
  simp [get_columns_of_table, findTable_consTable t st table h]

theorem setTableCharset_consTable (t : Table) (st : Database) (table cs coll : String)
    (h : t.name ≠ table) :
    setTableCharset (consTable t st) table cs coll = consTable t (setTableCharset st table cs coll) := by
  simp [setTableCharset, consTable, h]

theorem setColumnCharset_consTable (t : Table) (st : Database) (table colName cs coll : String)
    (h : t.name ≠ table) :
    setColumnCharset (consTable t st) table colName cs coll =
      consTable t (setColumnCharset st table colName cs coll) := by
  simp [setColumnCharset, consTable, h]

theorem single_table_frame (ok : String → Bool) (table cs coll : String) (t : Table)
    (st : Database) (h : t.name ≠ table) :
    convert_charset_single_table ok table cs coll (consTable t st) =
      ⟨consTable t (convert_charset_single_table ok table cs coll st).st,
        (convert_charset_single_table ok table cs coll st).queries,
        (convert_charset_single_table ok table cs coll st).errors⟩ := by
  unfold convert_charset_single_table
  rw [findTable_consTable t st table h]
  cases findTable st table with
  | none => rfl
  | some t0 =>
    by_cases hc : t0.charset = cs
    · simp [hc]
    · by_cases hok : ok (tableQuery table cs coll)
      · simp [hc, hok, setTableCharset_consTable t st table cs coll h]
      · simp [hc, hok]

theorem single_column_frame (ok : String → Bool) (column : Column) (table cs coll : String)
    (t : Table) (st : Database) (h : t.name ≠ table) :
    convert_charset_single_column ok column table cs coll (consTable t st) =
      ⟨consTable t (convert_charset_single_column ok column table cs coll st).st,
        (convert_charset_single_column ok column table cs coll st).queries,
        (convert_charset_single_column ok column table cs coll st).errors⟩ := by
  unfold convert_charset_single_column
  by_cases h1 : pyFalsy column.charset
  · simp [h1]
  · by_cases h2 : column.type ∈ ELIGIBLE_TYPES
    · by_cases h3 : column.charset = some cs
      · simp [h1, h2, h3]
      · by_cases hok : ok (columnQuery table column cs coll)
        · simp [h1, h2, h3, hok, setColumnCharset_consTable t st table column.name cs coll h]
        · simp [h1, h2, h3, hok]
    · simp [h1, h2]

theorem all_columns_single_table_frame (ok : String → Bool) (table cs coll : String)
    (t : Table) (st : Database) (h : t.name ≠ table) :
    convert_charset_all_columns_single_table ok table cs coll (consTable t st) =
      ⟨consTable t (convert_charset_all_columns_single_table ok table cs coll st).st,
        (convert_charset_all_columns_single_table ok table cs coll st).queries,
        (convert_charset_all_columns_single_table ok table cs coll st).errors⟩ := by
  unfold convert_charset_all_columns_single_table
  rw [get_columns_consTable t st table h]
  exact runUnits_frame _ t _
    (fun column _ st' => single_column_frame ok column table cs coll t st' h) st

theorem single_table_preserves (ok : String → Bool) (table cs coll : String) (st : Database) :
    projTables (convert_charset_single_table ok table cs coll st).st = projTables st := by
  unfold convert_charset_single_table
  cases findTable st table with
  | none => rfl
  | some t0 =>
    by_cases hc : t0.charset = cs
    · simp [hc]
    · by_cases hok : ok (tableQuery table cs coll)
      · have hmap : (st.tables.map fun t =>
            if t.name = table then { t with charset := cs, collation := coll } else t).map
              (fun t => (t.name, t.columns)) = st.tables.map fun t => (t.name, t.columns) := by
          rw [List.map_map]
          refine List.map_congr_left fun t ht => ?_
          by_cases hn : t.name = table <;> simp [hn]
        simp [hc, hok, projTables, setTableCharset, hmap]
      · simp [hc, hok]

theorem single_column_preserves (ok : String → Bool) (column : Column) (table cs coll : String)
    (st : Database) :
    projColumns (convert_charset_single_column ok column table cs coll st).st = projColumns st := by
  unfold convert_charset_single_column
  by_cases h1 : pyFalsy column.charset
  · simp [h1]
  · by_cases h2 : column.type ∈ ELIGIBLE_TYPES
    · by_cases h3 : column.charset = some cs
      · simp [h1, h2, h3]
      · by_cases hok : ok (columnQuery table column cs coll)
        · have hmap : (st.tables.map fun t =>
              if t.name = table then
                { t with columns := t.columns.map fun c =>
                    if c.name = column.name then
                      { c with charset := some cs, collation := some coll }
                    else c }
              else t).map (fun t => (t.name, t.charset, t.collation, t.columns.map Column.name)) =
                st.tables.map fun t => (t.name, t.charset, t.collation, t.columns.map Column.name) := by
            rw [List.map_map]
            refine List.map_congr_left fun t ht => ?_
            by_cases hn : t.name = table
            · have hcols : (t.columns.map fun c =>
                  if c.name = column.name then
                    { c with charset := some cs, collation := some coll }
                  else c).map Column.name = t.columns.map Column.name := by
                rw [List.map_map]
                refine List.map_congr_left fun c hc => ?_
                by_cases hcn : c.name = column.name <;> simp [hcn]
              simp [hn, hcols]
            · simp [hn]
          simp [h1, h2, h3, hok, projColumns, setColumnCharset, hmap]
        · simp [h1, h2, h3, hok]
    · simp [h1, h2]

theorem all_columns_single_table_preserves (ok : String → Bool) (table cs coll : String)
    (st : Database) :
    projColumns (convert_charset_all_columns_single_table ok table cs coll st).st =
      projColumns st := by
  unfold convert_charset_all_columns_single_table
  exact runUnits_proj projColumns _ _
    (fun column _ st' => single_column_preserves ok column table cs coll st') st

theorem all_tables_preserves (ok : String → Bool) (cs coll : String) (st : Database) :
    projTables (convert_charset_all_tables ok cs coll st).st = projTables st := by
  unfold convert_charset_all_tables
  exact runUnits_proj projTables _ _
    (fun table _ st' => single_table_preserves ok table cs coll st') st

theorem all_columns_all_tables_preserves (ok : String → Bool) (cs coll : String) (st : Database) :
    projColumns (convert_charset_all_columns_all_tables ok cs coll st).st = projColumns st := by
  unfold convert_charset_all_columns_all_tables
  exact runUnits_proj projColumns _ _
    (fun table _ st' => all_columns_single_table_preserves ok table cs coll st') st

theorem convert_db_tables (ok : String → Bool) (cs coll : String) (st : Database) :
    (convert_charset_db ok cs coll st).st.tables = st.tables := by
  unfold convert_charset_db
  by_cases hc : (get_charset_db st).1 = cs
  · simp [hc]
  · by_cases hok : ok (dbQuery st.name cs coll) <;> simp [hc, hok, setDbCharset]

theorem convert_db_name (ok : String → Bool) (cs coll : String) (st : Database) :
    (convert_charset_db ok cs coll st).st.name = st.name := by
  unfold convert_charset_db
  by_cases hc : (get_charset_db st).1 = cs
  · simp [hc]
  · by_cases hok : ok (dbQuery st.name cs coll) <;> simp [hc, hok, setDbCharset]

theorem tableAfter_name (ok : String → Bool) (cs coll : String) (t : Table) :
    (tableAfter ok cs coll t).name = t.name := by
  unfold tableAfter
  by_cases hc : t.charset = cs
  · simp [hc]
  · by_cases hok : ok (tableQuery t.name cs coll) <;> simp [hc, hok]

theorem name_ne_of_not_mem {t : Table} {rest : List Table}
    (h : t.name ∉ rest.map Table.name) : ∀ x ∈ rest, x.name ≠ t.name :=
  fun x hx he => h (he ▸ List.mem_map_of_mem Table.name hx)

theorem single_table_head (ok : String → Bool) (cs coll : String) (t : Table)
    (rest : List Table) (d c l : String) (h : t.name ∉ rest.map Table.name) :
    convert_charset_single_table ok t.name cs coll ⟨d, c, l, t :: rest⟩ =
      ⟨⟨d, c, l, tableAfter ok cs coll t :: rest⟩, tableUnitTrace cs coll t,
        (tableUnitTrace cs coll t).filter (fun q => !ok q)⟩ := by
  have hfind : findTable ⟨d, c, l, t :: rest⟩ t.name = some t := by
    simp [findTable, List.find?_cons]
  unfold convert_charset_single_table
  rw [hfind]
  by_cases hc : t.charset = cs
  · simp [hc, tableAfter, tableUnitTrace]
  · have hrest : rest.map (fun x =>
        if x.name = t.name then { x with charset := cs, collation := coll } else x) = rest := by
      have hid : ∀ x ∈ rest, (if x.name = t.name then
          { x with charset := cs, collation := coll } else x) = id x :=
        fun x hx => if_neg (name_ne_of_not_mem h x hx)
      rw [List.map_congr_left hid, List.map_id]
    by_cases hok : ok (tableQuery t.name cs coll)
    · simp [hc, hok, tableAfter, tableUnitTrace, setTableCharset, hrest]
    · simp [hc, hok, tableAfter, tableUnitTrace]

theorem allTables_run (ok : String → Bool) (cs coll : String) :
    ∀ (tables : List Table) (d c l : String), (tables.map Table.name).Nodup →
      runUnits (fun table => convert_charset_single_table ok table cs coll)
          (tables.map Table.name) ⟨d, c, l, tables⟩ =
        ⟨⟨d, c, l, tables.map (tableAfter ok cs coll)⟩,
          (tables.map (tableUnitTrace cs coll)).flatten,
          ((tables.map (tableUnitTrace cs coll)).flatten).filter (fun q => !ok q)⟩ := by
  intro tables
  induction tables with
  | nil => intro d c l _; rfl
  | cons t rest ih =>
    intro d c l hnd
    have hnotmem : t.name ∉ rest.map Table.name := (List.nodup_cons.mp hnd).1
    have hrest : (rest.map Table.name).Nodup := (List.nodup_cons.mp hnd).2
    rw [List.map_cons, runUnits_cons, single_table_head ok cs coll t rest d c l hnotmem]
    have hstate : (⟨d, c, l, tableAfter ok cs coll t :: rest⟩ : Database) =
        consTable (tableAfter ok cs coll t) ⟨d, c, l, rest⟩ := rfl
    have hframe := runUnits_frame (fun table => convert_charset_single_table ok table cs coll)
      (tableAfter ok cs coll t) (rest.map Table.name)
      (fun x hx st' => single_table_frame ok x cs coll (tableAfter ok cs coll t) st'
        (by rw [tableAfter_name]; exact fun he => hnotmem (he ▸ hx)))
      (⟨d, c, l, rest⟩ : Database)
    rw [hstate, hframe, ih d c l hrest]
    simp [consTable, List.filter_append]

theorem applyColConv_names (cs coll pname : String) (cols : List Column) :
    (applyColConv cs coll pname cols).map Column.name = cols.map Column.name := by
  unfold applyColConv
  rw [List.map_map]
  refine List.map_congr_left fun c hc => ?_
  by_cases hn : c.name = pname <;> simp [hn]

theorem skipCol_of_converted (cs coll : String) (c : Column) :
    skipCol cs { c with charset := some cs, collation := some coll } = true := by
  simp [skipCol]

/-- The three leading guards of `convert_charset_single_column` fire exactly
when `skipCol` holds, and then nothing happens at all. -/
theorem single_column_skip (ok : String → Bool) (column : Column) (table cs coll : String)
    (st : Database) (h : skipCol cs column = true) :
    convert_charset_single_column ok column table cs coll st = ⟨st, [], []⟩ := by
  unfold convert_charset_single_column
  by_cases h1 : pyFalsy column.charset
  · simp [h1]
  · by_cases h2 : column.type ∈ ELIGIBLE_TYPES
    · by_cases h3 : column.charset = some cs
      · simp [h1, h2, h3]
      · exfalso
        have hc : ELIGIBLE_TYPES.contains column.type = true := List.elem_iff.mpr h2
        have hb : (column.charset == some cs) = false := beq_eq_false_iff_ne.mpr h3
        have hp : pyFalsy column.charset = false := Bool.eq_false_iff.mpr h1
        simp [skipCol, hp, hc, hb] at h
        exact h h2
    · simp [h1, h2]

/-- One step of the per-table column loop, acting on the head table. -/
theorem single_column_head (ok : String → Bool) (p : Column) (n cs coll : String)
    (tcur : Table) (ts : List Table) (d c l : String)
    (htn : tcur.name = n) (hts : ∀ x ∈ ts, x.name ≠ n) :
    convert_charset_single_column ok p n cs coll ⟨d, c, l, tcur :: ts⟩ =
      ⟨⟨d, c, l, (if skipCol cs p then tcur
          else if ok (columnQuery n p cs coll) then
            { tcur with columns := applyColConv cs coll p.name tcur.columns }
          else tcur) :: ts⟩,
        columnUnitTrace cs coll n p,
        (columnUnitTrace cs coll n p).filter (fun q => !ok q)⟩ := by
  by_cases hskip : skipCol cs p
  · rw [single_column_skip ok p n cs coll _ hskip]
    simp [hskip, columnUnitTrace]
  · have hsf : skipCol cs p = false := Bool.eq_false_iff.mpr hskip
    have h1 : pyFalsy p.charset = false := by
      unfold skipCol at hsf
      cases hpf : pyFalsy p.charset
      · rfl
      · rw [hpf] at hsf; simp at hsf
    have h2 : p.type ∈ ELIGIBLE_TYPES := by
      unfold skipCol at hsf
      cases hct : ELIGIBLE_TYPES.contains p.type
      · rw [hct] at hsf; simp at hsf
      · exact List.elem_iff.mp hct
    have h3 : ¬ p.charset = some cs := by
      intro he
      unfold skipCol at hsf
      rw [he] at hsf
      simp at hsf
    have hts' : ts.map (fun t =>
        if t.name = n then
          { t with columns := t.columns.map fun cc =>
              if cc.name = p.name then { cc with charset := some cs, collation := some coll }
              else cc }
        else t) = ts := by
      have hid : ∀ x ∈ ts, (if x.name = n then
          { x with columns := x.columns.map fun cc =>
              if cc.name = p.name then { cc with charset := some cs, collation := some coll }
              else cc }
          else x) = id x := fun x hx => if_neg (hts x hx)
      rw [List.map_congr_left hid, List.map_id]
    unfold convert_charset_single_column
    by_cases hok : ok (columnQuery n p cs coll)
    · simp [h1, h2, h3, hok, hskip, columnUnitTrace, setColumnCharset, htn, hts',
        applyColConv]
    · simp [h1, h2, h3, hok, hskip, columnUnitTrace]

/-- Full characterization of the per-table column loop: it only rewrites the
head table, issues exactly the per-column unit traces of the pre-read rows (in
order, independently of execution failures), logs exactly the failing
statements, preserves name/charset/collation/column names, and — when every
non-skipped pre-read row is executed successfully — leaves every column of the
head table in a state the eligibility filter skips. -/
theorem colsLoop_run (ok : String → Bool) (n cs coll : String) (ts : List Table)
    (d c l : String) (hts : ∀ x ∈ ts, x.name ≠ n) :
    ∀ (pending : List Column) (tcur : Table), tcur.name = n →
      ∃ tfin : Table,
        runUnits (fun column => convert_charset_single_column ok column n cs coll) pending
            ⟨d, c, l, tcur :: ts⟩ =
          ⟨⟨d, c, l, tfin :: ts⟩, (pending.map (columnUnitTrace cs coll n)).flatten,
            ((pending.map (columnUnitTrace cs coll n)).flatten).filter (fun q => !ok q)⟩
        ∧ tfin.name = n ∧ tfin.charset = tcur.charset ∧ tfin.collation = tcur.collation
        ∧ tfin.columns.map Column.name = tcur.columns.map Column.name
        ∧ ((∀ q ∈ tcur.columns, skipCol cs q = true ∨
              ∃ pp ∈ pending, pp.name = q.name ∧ skipCol cs pp = false ∧
                ok (columnQuery n pp cs coll) = true) →
            ∀ q ∈ tfin.columns, skipCol cs q = true) := by
  intro pending
  induction pending with
  | nil =>
    intro tcur htn
    refine ⟨tcur, rfl, htn, rfl, rfl, rfl, fun hinv q hq => ?_⟩
    rcases hinv q hq with h | ⟨pp, hpp, _⟩
    · exact h
    · exact absurd hpp (List.not_mem_nil pp)
  | cons p rest ih =>
    intro tcur htn
    rw [runUnits_cons, single_column_head ok p n cs coll tcur ts d c l htn hts]
    by_cases hskip : skipCol cs p
    · simp only [hskip, if_true]
      rcases ih tcur htn with ⟨tfin, hrun, hname, hcs, hcoll, hcols, hinv⟩
      refine ⟨tfin, ?_, hname, hcs, hcoll, hcols, ?_⟩
      · rw [hrun]
        simp [columnUnitTrace, hskip]
      · intro hpre
        refine hinv fun q hq => ?_
        rcases hpre q hq with h | ⟨pp, hpp, hn, hsf, hok⟩
        · exact Or.inl h
        · rcases List.mem_cons.mp hpp with rfl | hpp'
          · exact absurd hskip (by rw [hsf]; simp)
          · exact Or.inr ⟨pp, hpp', hn, hsf, hok⟩
    · by_cases hok : ok (columnQuery n p cs coll)
      · simp only [hskip, if_false, hok, if_true, Bool.false_eq_true]
        set tcur' : Table := { tcur with columns := applyColConv cs coll p.name tcur.columns }
          with htcur'
        rcases ih tcur' htn with ⟨tfin, hrun, hname, hcs, hcoll, hcols, hinv⟩
        refine ⟨tfin, ?_, hname, hcs, hcoll, ?_, ?_⟩
        · rw [hrun]
          simp [columnUnitTrace, hskip, hok]
        · rw [hcols, htcur']
          exact applyColConv_names cs coll p.name tcur.columns
        · intro hpre
          refine hinv fun q hq => ?_
          rcases List.mem_map.mp hq with ⟨q0, hq0, hq0eq⟩
          by_cases hqn : q0.name = p.name
          · rw [← hq0eq, if_pos hqn]
            exact Or.inl (skipCol_of_converted cs coll q0)
          · rw [← hq0eq, if_neg hqn]
            rcases hpre q0 hq0 with h | ⟨pp, hpp, hn, hsf, hokpp⟩
            · exact Or.inl h
            · rcases List.mem_cons.mp hpp with rfl | hpp'
              · exact absurd hn.symm hqn
              · exact Or.inr ⟨pp, hpp', hn, hsf, hokpp⟩
      · simp only [hskip, if_false, hok, Bool.false_eq_true]
        rcases ih tcur htn with ⟨tfin, hrun, hname, hcs, hcoll, hcols, hinv⟩
        refine ⟨tfin, ?_, hname, hcs, hcoll, hcols, ?_⟩
        · rw [hrun]
          simp [columnUnitTrace, hskip, hok]
        · intro hpre
          refine hinv fun q hq => ?_
          rcases hpre q hq with h | ⟨pp, hpp, hn, hsf, hokpp⟩
          · exact Or.inl h
          · rcases List.mem_cons.mp hpp with rfl | hpp'
            · exact absurd hokpp hok
            · exact Or.inr ⟨pp, hpp', hn, hsf, hokpp⟩

theorem get_columns_head (t : Table) (rest : List Table) (d c l : String) :
    get_columns_of_table ⟨d, c, l, t :: rest⟩ t.name = t.columns := by
  simp [get_columns_of_table, findTable, List.find?_cons]

/-- Characterization of the whole column pass: DDL trace and error log as joins
of the per-column unit traces over the (unchanged) table structure, plus full
conversion of every eligible column when every statement succeeds. -/
theorem allColumns_run (ok : String → Bool) (cs coll : String) :
    ∀ (tables : List Table) (d c l : String), (tables.map Table.name).Nodup →
      ∃ tablesFin : List Table,
        runUnits (fun table => convert_charset_all_columns_single_table ok table cs coll)
            (tables.map Table.name) ⟨d, c, l, tables⟩ =
          ⟨⟨d, c, l, tablesFin⟩,
            (tables.map fun t => (t.columns.map (columnUnitTrace cs coll t.name)).flatten).flatten,
            ((tables.map fun t =>
              (t.columns.map (columnUnitTrace cs coll t.name)).flatten).flatten).filter
                (fun q => !ok q)⟩
        ∧ tablesFin.map (fun t => (t.name, t.charset, t.collation, t.columns.map Column.name)) =
            tables.map (fun t => (t.name, t.charset, t.collation, t.columns.map Column.name))
        ∧ ((∀ q, ok q = true) → ∀ t ∈ tablesFin, ∀ cc ∈ t.columns, skipCol cs cc = true) := by
  intro tables
  induction tables with
  | nil =>
    intro d c l _
    exact ⟨[], rfl, rfl, fun _ t ht => absurd ht (List.not_mem_nil t)⟩
  | cons t rest ih =>
    intro d c l hnd
    have hnotmem : t.name ∉ rest.map Table.name := (List.nodup_cons.mp hnd).1
    have hrestnd : (rest.map Table.name).Nodup := (List.nodup_cons.mp hnd).2
    have hts : ∀ x ∈ rest, x.name ≠ t.name := name_ne_of_not_mem hnotmem
    rcases colsLoop_run ok t.name cs coll rest d c l hts t.columns t rfl with
      ⟨tfin, hrun, hname, hcs, hcoll, hcols, hinv⟩
    have hhead : convert_charset_all_columns_single_table ok t.name cs coll
        ⟨d, c, l, t :: rest⟩ =
        ⟨⟨d, c, l, tfin :: rest⟩, (t.columns.map (columnUnitTrace cs coll t.name)).flatten,
          ((t.columns.map (columnUnitTrace cs coll t.name)).flatten).filter (fun q => !ok q)⟩ := by
      unfold convert_charset_all_columns_single_table
      rw [get_columns_head t rest d c l]
      exact hrun
    rw [List.map_cons, runUnits_cons, hhead]
    have hstate : (⟨d, c, l, tfin :: rest⟩ : Database) = consTable tfin ⟨d, c, l, rest⟩ := rfl
    have hframe := runUnits_frame
      (fun table => convert_charset_all_columns_single_table ok table cs coll)
      tfin (rest.map Table.name)
      (fun x hx st' => all_columns_single_table_frame ok x cs coll tfin st'
        (by rw [hname]; exact fun he => hnotmem (he ▸ hx)))
      (⟨d, c, l, rest⟩ : Database)
    rcases ih d c l hrestnd with ⟨tablesFin', hrun', hproj', hconv'⟩
    refine ⟨tfin :: tablesFin', ?_, ?_, ?_⟩
    · rw [hstate, hframe, hrun']
      simp [consTable, List.filter_append]
    · rw [List.map_cons, List.map_cons, hproj', hname, hcs, hcoll, hcols]
    · intro hallok tx htx ccx hccx
      rcases List.mem_cons.mp htx with rfl | htx'
      · refine hinv (fun q hq => ?_) ccx hccx
        by_cases hsq : skipCol cs q = true
        · exact Or.inl hsq
        · exact Or.inr ⟨q, hq, rfl, Bool.eq_false_iff.mpr hsq, hallok _⟩
      · exact hconv' hallok tx htx' ccx hccx

theorem convert_db_run (ok : String → Bool) (cs coll : String) (st : Database) :
    convert_charset_db ok cs coll st =
      ⟨⟨st.name,
        (if st.charset = cs then st.charset
          else if ok (dbQuery st.name cs coll) then cs else st.charset),
        (if st.charset = cs then st.collation
          else if ok (dbQuery st.name cs coll) then coll else st.collation),
        st.tables⟩,
        dbUnitTrace cs coll st, (dbUnitTrace cs coll st).filter (fun q => !ok q)⟩ := by
  obtain ⟨n, c0, l0, tbs⟩ := st
  unfold convert_charset_db dbUnitTrace get_charset_db
  by_cases hc : c0 = cs
  · simp [hc]
  · by_cases hok : ok (dbQuery n cs coll) <;> simp [hc, hok, setDbCharset]

theorem tableAfter_columns (ok : String → Bool) (cs coll : String) (t : Table) :
    (tableAfter ok cs coll t).columns = t.columns := by
  unfold tableAfter
  by_cases hc : t.charset = cs
  · simp [hc]
  · by_cases hok : ok (tableQuery t.name cs coll) <;> simp [hc, hok]

theorem allTables_run' (ok : String → Bool) (cs coll : String) (st : Database)
    (hnd : (st.tables.map Table.name).Nodup) :
    convert_charset_all_tables ok cs coll st =
      ⟨⟨st.name, st.charset, st.collation, st.tables.map (tableAfter ok cs coll)⟩,
        (st.tables.map (tableUnitTrace cs coll)).flatten,
        ((st.tables.map (tableUnitTrace cs coll)).flatten).filter (fun q => !ok q)⟩ :=
  allTables_run ok cs coll st.tables st.name st.charset st.collation hnd

theorem allColumns_run' (ok : String → Bool) (cs coll : String) (st : Database)
    (hnd : (st.tables.map Table.name).Nodup) :
    ∃ tablesFin : List Table,
      convert_charset_all_columns_all_tables ok cs coll st =
        ⟨⟨st.name, st.charset, st.collation, tablesFin⟩,
          (st.tables.map fun t => (t.columns.map (columnUnitTrace cs coll t.name)).flatten).flatten,
          ((st.tables.map fun t =>
            (t.columns.map (columnUnitTrace cs coll t.name)).flatten).flatten).filter
              (fun q => !ok q)⟩
      ∧ tablesFin.map (fun t => (t.name, t.charset, t.collation, t.columns.map Column.name)) =
          st.tables.map (fun t => (t.name, t.charset, t.collation, t.columns.map Column.name))
      ∧ ((∀ q, ok q = true) → ∀ t ∈ tablesFin, ∀ cc ∈ t.columns, skipCol cs cc = true) :=
  allColumns_run ok cs coll st.tables st.name st.charset st.collation hnd

/-- The full conversion is the sequential composition of the three passes,
with concatenated DDL traces and error logs. -/
theorem convert_all_eq (ok : String → Bool) (cs coll : String) (st : Database) :
    convert_charset_all ok cs coll st =
      ⟨(convert_charset_all_columns_all_tables ok cs coll
          (convert_charset_all_tables ok cs coll (convert_charset_db ok cs coll st).st).st).st,
        (convert_charset_db ok cs coll st).queries ++
          ((convert_charset_all_tables ok cs coll (convert_charset_db ok cs coll st).st).queries ++
            (convert_charset_all_columns_all_tables ok cs coll
              (convert_charset_all_tables ok cs coll
                (convert_charset_db ok cs coll st).st).st).queries),
        (convert_charset_db ok cs coll st).errors ++
          ((convert_charset_all_tables ok cs coll (convert_charset_db ok cs coll st).st).errors ++
            (convert_charset_all_columns_all_tables ok cs coll
              (convert_charset_all_tables ok cs coll
                (convert_charset_db ok cs coll st).st).st).errors)⟩ := by
  unfold convert_charset_all
  simp [seqConv]

/-- The DDL trace of the full conversion decomposes into the database unit
trace, then the per-table unit traces, then the per-column unit traces, all
read off the initial state; the error log is exactly the failing statements. -/
theorem convertAll_run (ok : String → Bool) (cs coll : String) (st : Database)
    (hnd : (st.tables.map Table.name).Nodup) :
    (convert_charset_all ok cs coll st).queries =
      dbUnitTrace cs coll st ++ (st.tables.map (tableUnitTrace cs coll)).flatten ++
        (st.tables.map fun t => (t.columns.map (columnUnitTrace cs coll t.name)).flatten).flatten
    ∧ (convert_charset_all ok cs coll st).errors =
        ((convert_charset_all ok cs coll st).queries).filter (fun q => !ok q) := by
  have e1 := convert_db_run ok cs coll st
  have hnd1 : (((⟨st.name,
      (if st.charset = cs then st.charset
        else if ok (dbQuery st.name cs coll) then cs else st.charset),
      (if st.charset = cs then st.collation
        else if ok (dbQuery st.name cs coll) then coll else st.collation),
      st.tables⟩ : Database)).tables.map Table.name).Nodup := hnd
  have e2 := allTables_run' ok cs coll _ hnd1
  have hnd2 : (((⟨st.name,
      (if st.charset = cs then st.charset
        else if ok (dbQuery st.name cs coll) then cs else st.charset),
      (if st.charset = cs then st.collation
        else if ok (dbQuery st.name cs coll) then coll else st.collation),
      st.tables.map (tableAfter ok cs coll)⟩ : Database)).tables.map Table.name).Nodup := by
    show ((st.tables.map (tableAfter ok cs coll)).map Table.name).Nodup
    have hmm : (st.tables.map (tableAfter ok cs coll)).map Table.name =
        st.tables.map Table.name := by
      rw [List.map_map]
      exact List.map_congr_left fun t _ => tableAfter_name ok cs coll t
    rw [hmm]
    exact hnd
  obtain ⟨tablesFin, e3, _hproj, _⟩ := allColumns_run' ok cs coll _ hnd2
  have h3 : ((st.tables.map (tableAfter ok cs coll)).map fun t =>
      (t.columns.map (columnUnitTrace cs coll t.name)).flatten) =
      st.tables.map fun t => (t.columns.map (columnUnitTrace cs coll t.name)).flatten := by
    rw [List.map_map]
    refine List.map_congr_left fun t _ => ?_
    show (((tableAfter ok cs coll t).columns).map
      (columnUnitTrace cs coll (tableAfter ok cs coll t).name)).flatten = _
    rw [tableAfter_columns, tableAfter_name]
  rw [convert_all_eq, e1]
  simp only at e2 ⊢
  rw [e2]
  simp only at e3 ⊢
  rw [e3]
  simp only at h3 ⊢
  constructor
  · show dbUnitTrace cs coll st ++ (_ ++ _) = _
    rw [h3, List.append_assoc]
  · show (dbUnitTrace cs coll st).filter _ ++ (_ ++ _) = _
    rw [h3]
    simp [List.filter_append]

/-- On a converged state the full conversion — with any execution oracle —
issues no DDL at all, logs nothing and leaves the state untouched. -/
theorem convertAll_converged (ok : String → Bool) (cs coll : String) (st : Database)
    (hc : converged cs st) : convert_charset_all ok cs coll st = ⟨st, [], []⟩ := by
  have hdb : convert_charset_db ok cs coll st = ⟨st, [], []⟩ := by
    unfold convert_charset_db get_charset_db
    simp [hc.1]
  have htab : convert_charset_all_tables ok cs coll st = ⟨st, [], []⟩ := by
    unfold convert_charset_all_tables
    refine runUnits_noop _ _ _ fun name _ => ?_
    unfold convert_charset_single_table
    cases hf : findTable st name with
    | none => rfl
    | some t0 =>
      have ht0 : t0 ∈ st.tables := List.mem_of_find?_eq_some hf
      simp [hc.2.1 t0 ht0]
  have hcol : convert_charset_all_columns_all_tables ok cs coll st = ⟨st, [], []⟩ := by
    unfold convert_charset_all_columns_all_tables
    refine runUnits_noop _ _ _ fun name _ => ?_
    unfold convert_charset_all_columns_single_table
    refine runUnits_noop _ _ _ fun column hcol => ?_
    refine single_column_skip ok column name cs coll st ?_
    unfold get_columns_of_table at hcol
    cases hf : findTable st name with
    | none => rw [hf] at hcol; exact absurd hcol (List.not_mem_nil column)
    | some t0 =>
      rw [hf] at hcol
      exact hc.2.2 t0 (List.mem_of_find?_eq_some hf) column hcol
  simp [convert_all_eq, hdb, htab, hcol]

theorem convert_db_charset_allOk (ok : String → Bool) (cs coll : String) (st : Database)
    (hok : ∀ q, ok q = true) : (convert_charset_db ok cs coll st).st.charset = cs := by
  rw [convert_db_run]
  by_cases hc : st.charset = cs
  · simp [hc]
  · simp [hc, hok (dbQuery st.name cs coll)]

theorem tableAfter_charset_allOk (ok : String → Bool) (cs coll : String) (t : Table)
    (hok : ∀ q, ok q = true) : (tableAfter ok cs coll t).charset = cs := by
  unfold tableAfter
  by_cases hc : t.charset = cs
  · simp [hc]
  · simp [hc, hok (tableQuery t.name cs coll)]

/-- After a full conversion in which every statement is accepted, the state is
converged: nothing is left for a second run to do. -/
theorem run1_converged (ok : String → Bool) (cs coll : String) (st : Database)
    (hok : ∀ q, ok q = true) (hnd : (st.tables.map Table.name).Nodup) :
    converged cs ((convert_charset_all ok cs coll st).st) := by
  have e1 := convert_db_run ok cs coll st
  have hnd1 : (((⟨st.name,
      (if st.charset = cs then st.charset
        else if ok (dbQuery st.name cs coll) then cs else st.charset),
      (if st.charset = cs then st.collation
        else if ok (dbQuery st.name cs coll) then coll else st.collation),
      st.tables⟩ : Database)).tables.map Table.name).Nodup := hnd
  have e2 := allTables_run' ok cs coll _ hnd1
  have hnd2 : (((⟨st.name,
      (if st.charset = cs then st.charset
        else if ok (dbQuery st.name cs coll) then cs else st.charset),
      (if st.charset = cs then st.collation
        else if ok (dbQuery st.name cs coll) then coll else st.collation),
      st.tables.map (tableAfter ok cs coll)⟩ : Database)).tables.map Table.name).Nodup := by
    show ((st.tables.map (tableAfter ok cs coll)).map Table.name).Nodup
    have hmm : (st.tables.map (tableAfter ok cs coll)).map Table.name =
        st.tables.map Table.name := by
      rw [List.map_map]
      exact List.map_congr_left fun t _ => tableAfter_name ok cs coll t
    rw [hmm]
    exact hnd
  obtain ⟨tablesFin, e3, hproj, hconv⟩ := allColumns_run' ok cs coll _ hnd2
  have hstate : (convert_charset_all ok cs coll st).st =
      ⟨st.name,
        (if st.charset = cs then st.charset
          else if ok (dbQuery st.name cs coll) then cs else st.charset),
        (if st.charset = cs then st.collation
          else if ok (dbQuery st.name cs coll) then coll else st.collation),
        tablesFin⟩ := by
    rw [convert_all_eq, e1]
    simp only at e2 ⊢
    rw [e2]
    simp only at e3 ⊢
    rw [e3]
  rw [hstate]
  refine ⟨?_, ?_, ?_⟩
  · show (if st.charset = cs then st.charset
      else if ok (dbQuery st.name cs coll) then cs else st.charset) = cs
    by_cases hc : st.charset = cs
    · simp [hc]
    · simp [hc, hok (dbQuery st.name cs coll)]
  · intro t ht
    have h1 : (t.name, t.charset, t.collation, t.columns.map Column.name) ∈
        tablesFin.map fun t => (t.name, t.charset, t.collation, t.columns.map Column.name) :=
      List.mem_map_of_mem _ ht
    rw [hproj] at h1
    rcases List.mem_map.mp h1 with ⟨t', ht', heq⟩
    rcases List.mem_map.mp ht' with ⟨t0, _, rfl⟩
    have hch : (tableAfter ok cs coll t0).charset = t.charset := by
      have := congrArg (fun p => p.2.1) heq
      simpa using this
    rw [← hch]
    exact tableAfter_charset_allOk ok cs coll t0 hok
  · exact fun t ht c hc0 => hconv hok t ht c hc0

/-- C1.  The full conversion — as invoked by the default convert mode and,
identically, by the validator — applies the per-unit conversion algorithm to
the database itself, then to every table, then to every column of every table,
in database → tables → columns order: its DDL trace is the concatenation of
the database unit trace, the per-table unit traces and the per-table
per-column unit traces, all in catalog order. -/
theorem claim_c1 (ok : String → Bool) (st : Database)
    (hnd : (st.tables.map Table.name).Nodup) :
    main Mode.convert ok st =
      dbUnitTrace DEFAULT_CHARSET DEFAULT_COLLATION st
        ++ (st.tables.map (tableUnitTrace DEFAULT_CHARSET DEFAULT_COLLATION)).flatten
        ++ (st.tables.map fun t =>
            (t.columns.map
              (columnUnitTrace DEFAULT_CHARSET DEFAULT_COLLATION t.name)).flatten).flatten
    ∧ main Mode.validate ok st = main Mode.convert ok st := by
  refine ⟨?_, rfl⟩
  exact (convertAll_run ok DEFAULT_CHARSET DEFAULT_COLLATION st hnd).1

/-- Witness for C1 at a concrete database. -/
theorem claim_c1_witness :
    (exampleDb.tables.map Table.name).Nodup
    ∧ (main Mode.convert (fun _ => true) exampleDb =
        dbUnitTrace DEFAULT_CHARSET DEFAULT_COLLATION exampleDb
          ++ (exampleDb.tables.map (tableUnitTrace DEFAULT_CHARSET DEFAULT_COLLATION)).flatten
          ++ (exampleDb.tables.map fun t =>
              (t.columns.map
                (columnUnitTrace DEFAULT_CHARSET DEFAULT_COLLATION t.name)).flatten).flatten
      ∧ main Mode.validate (fun _ => true) exampleDb = main Mode.convert (fun _ => true) exampleDb) :=
  ⟨by decide, claim_c1 (fun _ => true) exampleDb (by decide)⟩

/-- C2.  A unit whose current charset (as read through the schema queries)
already equals the target is a strict no-op — no DDL, no state change, no log —
at all three levels; consequently a second full conversion run over the result
of a successful full conversion issues zero ALTER statements. -/
theorem claim_c2 (ok : String → Bool) (cs coll : String) (st : Database) :
    (st.charset = cs → convert_charset_db ok cs coll st = ⟨st, [], []⟩)
    ∧ (∀ table cother, get_charset_table st table = some (cs, cother) →
        convert_charset_single_table ok table cs coll st = ⟨st, [], []⟩)
    ∧ (∀ (column : Column) (table : String), column.charset = some cs →
        convert_charset_single_column ok column table cs coll st = ⟨st, [], []⟩)
    ∧ ((st.tables.map Table.name).Nodup → ∀ ok2 : String → Bool,
        (convert_charset_all ok2 cs coll
          (convert_charset_all (fun _ => true) cs coll st).st).queries = []) := by
  refine ⟨?_, ?_, ?_, ?_⟩
  · intro hc
    unfold convert_charset_db get_charset_db
    simp [hc]
  · intro table cother h
    unfold get_charset_table at h
    rcases Option.map_eq_some'.mp h with ⟨t, hf, heq⟩
    have hcs : t.charset = cs := (Prod.mk.injEq _ _ _ _ ▸ heq).1
    unfold convert_charset_single_table
    rw [hf]
    simp [hcs]
  · intro column table h
    exact single_column_skip ok column table cs coll st (by simp [skipCol, h])
  · intro hnd ok2
    have hconv := run1_converged (fun _ => true) cs coll st (fun _ => rfl) hnd
    rw [convertAll_converged ok2 cs coll _ hconv]

/-- Witness for C2: the three per-unit no-ops on concrete inputs and the
zero-statement second run on a concrete database. -/
theorem claim_c2_witness :
    (exampleDb.tables.map Table.name).Nodup
    ∧ (convert_charset_all (fun _ => true) "utf8mb4" "utf8mb4_unicode_520_ci"
        (convert_charset_all (fun _ => true) "utf8mb4" "utf8mb4_unicode_520_ci"
          exampleDb).st).queries = []
    ∧ convert_charset_single_table (fun _ => true) "B" "utf8mb4" "utf8mb4_unicode_520_ci"
        exampleDb = ⟨exampleDb, [], []⟩ :=
  ⟨by decide,
    (claim_c2 (fun _ => true) "utf8mb4" "utf8mb4_unicode_520_ci" exampleDb).2.2.2
      (by decide) (fun _ => true),
    (claim_c2 (fun _ => true) "utf8mb4" "utf8mb4_unicode_520_ci" exampleDb).2.1
      "B" "utf8mb4_unicode_520_ci" (by decide)⟩

/-- C5.  A failed ALTER is logged (error log = exactly the offending statement
texts the oracle rejects) and never escapes the per-unit operation: the DDL
trace of both batch iterations is the concatenation of every sibling's unit
trace, independently of which statements fail. -/
theorem claim_c5 (ok : String → Bool) (cs coll : String) (st : Database)
    (hnd : (st.tables.map Table.name).Nodup) :
    ((convert_charset_all_tables ok cs coll st).queries
        = (st.tables.map (tableUnitTrace cs coll)).flatten
      ∧ (convert_charset_all_tables ok cs coll st).errors
        = ((convert_charset_all_tables ok cs coll st).queries).filter (fun q => !ok q))
    ∧ ((convert_charset_all_columns_all_tables ok cs coll st).queries
        = (st.tables.map fun t =>
            (t.columns.map (columnUnitTrace cs coll t.name)).flatten).flatten
      ∧ (convert_charset_all_columns_all_tables ok cs coll st).errors
        = ((convert_charset_all_columns_all_tables ok cs coll st).queries).filter
            (fun q => !ok q)) := by
  constructor
  · rw [allTables_run' ok cs coll st hnd]
    exact ⟨rfl, rfl⟩
  · rcases allColumns_run' ok cs coll st hnd with ⟨tablesFin, hrun, _, _⟩
    rw [hrun]
    exact ⟨rfl, rfl⟩

/-- Witness for C5 with an oracle that rejects exactly table B's statement:
tables A and C still receive their ALTER statements and B's statement is
logged. -/
theorem claim_c5_witness :
    (exampleDb.tables.map Table.name).Nodup
    ∧ (convert_charset_all_tables
          (fun q => q ≠ tableQuery "B" "utf8mb4" "utf8mb4_unicode_520_ci")
          "utf8mb4" "utf8mb4_unicode_520_ci" exampleDb).queries
        = (exampleDb.tables.map (tableUnitTrace "utf8mb4" "utf8mb4_unicode_520_ci")).flatten :=
  ⟨by decide,
    ((claim_c5 (fun q => q ≠ tableQuery "B" "utf8mb4" "utf8mb4_unicode_520_ci")
      "utf8mb4" "utf8mb4_unicode_520_ci" exampleDb (by decide)).1).1⟩

theorem skipCol_false_parts (cs : String) (column : Column) (h : skipCol cs column = false) :
    pyFalsy column.charset = false ∧ column.type ∈ ELIGIBLE_TYPES ∧ column.charset ≠ some cs := by
  refine ⟨?_, ?_, ?_⟩
  · unfold skipCol at h
    cases hpf : pyFalsy column.charset
    · rfl
    · rw [hpf] at h; simp at h
  · unfold skipCol at h
    cases hct : ELIGIBLE_TYPES.contains column.type
    · rw [hct] at h; simp at h
    · exact List.elem_iff.mp hct
  · intro he
    unfold skipCol at h
    rw [he] at h
    simp at h

/-- Counterexample to C3 as stated: a `varchar` column whose charset is the
empty string (a falsy value distinct from SQL NULL) meets none of the claim's
three skip conditions, yet the code's truthiness test `if not
column["charset"]` skips it and issues no statement. -/
theorem claim_c3_counterexample :
    (⟨"c", "varchar", "varchar(10)", some "", some "", "YES", none⟩ : Column).charset ≠ none
    ∧ (⟨"c", "varchar", "varchar(10)", some "", some "", "YES", none⟩ : Column).type
        ∈ ELIGIBLE_TYPES
    ∧ (⟨"c", "varchar", "varchar(10)", some "", some "", "YES", none⟩ : Column).charset
        ≠ some "utf8mb4"
    ∧ (convert_charset_single_column (fun _ => true)
        ⟨"c", "varchar", "varchar(10)", some "", some "", "YES", none⟩ "t" "utf8mb4"
        "utf8mb4_unicode_520_ci" exampleDb).queries = [] := by
  refine ⟨by decide, by decide, by decide, ?_⟩
  rw [single_column_skip (fun _ => true) _ "t" "utf8mb4" "utf8mb4_unicode_520_ci" exampleDb
    (by decide)]

/-- C3 (amended).  `convert_charset_single_column` skips a column — no state
change, no statement, nothing logged — exactly when its charset is Python-falsy
(SQL NULL or the empty string), or its data type is not one of
{char, varchar, text, longtext}, or its charset equals the target; for every
other column it issues exactly the one CHANGE statement. -/
theorem claim_c3_amended (ok : String → Bool) (column : Column) (table cs coll : String)
    (st : Database) :
    ((convert_charset_single_column ok column table cs coll st).queries
        = if skipCol cs column then [] else [columnQuery table column cs coll])
    ∧ (skipCol cs column = true →
        convert_charset_single_column ok column table cs coll st = ⟨st, [], []⟩)
    ∧ (skipCol cs column = true ↔
        (column.charset = none ∨ column.charset = some "")
          ∨ column.type ∉ ELIGIBLE_TYPES ∨ column.charset = some cs) := by
  refine ⟨?_, fun h => single_column_skip ok column table cs coll st h, ?_⟩
  · by_cases hskip : skipCol cs column
    · rw [single_column_skip ok column table cs coll st hskip]
      simp [hskip]
    · rcases skipCol_false_parts cs column (Bool.eq_false_iff.mpr hskip) with ⟨h1, h2, h3⟩
      unfold convert_charset_single_column
      rw [h1]
      by_cases hok : ok (columnQuery table column cs coll) <;>
        simp [h1, h2, h3, hok, hskip]
  · constructor
    · intro h
      by_cases h1 : pyFalsy column.charset
      · cases hc : column.charset with
        | none => exact Or.inl (Or.inl rfl)
        | some s =>
          rw [hc] at h1
          have hs : s = "" := (String.isEmpty_iff s).mp h1
          exact Or.inl (Or.inr (by rw [hs]))
      · unfold skipCol at h
        rw [Bool.eq_false_iff.mpr h1] at h
        simp at h
        rcases h with h2 | h3
        · exact Or.inr (Or.inl h2)
        · exact Or.inr (Or.inr h3)
    · intro h
      rcases h with (hn | he) | hty | heq
      · simp [skipCol, pyFalsy, hn]
      · simp [skipCol, pyFalsy, he, String.isEmpty]
      · have hcf : (!ELIGIBLE_TYPES.contains column.type) = true := by
          cases hct : ELIGIBLE_TYPES.contains column.type
          · rfl
          · exact absurd (List.elem_iff.mp hct) hty
        simp only [skipCol, Bool.or_eq_true]
        exact Or.inl (Or.inr hcf)
      · simp [skipCol, heq]

/-- Witness for C3 (amended), at the spec's synthetic `int`-with-charset input:
the filter skips it and nothing happens. -/
theorem claim_c3_witness :
    skipCol "utf8mb4" colInt = true
    ∧ convert_charset_single_column (fun _ => true) colInt "A" "utf8mb4"
        "utf8mb4_unicode_520_ci" exampleDb = ⟨exampleDb, [], []⟩ :=
  ⟨by decide,
    (claim_c3_amended (fun _ => true) colInt "A" "utf8mb4" "utf8mb4_unicode_520_ci"
      exampleDb).2.1 (by decide)⟩

/-- C4.  For a column that passes the eligibility filter the issued statement
has exactly the shape `ALTER TABLE <table> CHANGE <col> <col> <fullColumnType>
CHARACTER SET <charset> COLLATE <collation>` followed by ` NULL` when the
column is nullable (and no DEFAULT clause) and by ` NOT NULL DEFAULT
<defaultValue>` otherwise. -/
theorem claim_c4 (ok : String → Bool) (column : Column) (table cs coll : String)
    (st : Database) (h1 : pyFalsy column.charset = false)
    (h2 : column.type ∈ ELIGIBLE_TYPES) (h3 : column.charset ≠ some cs) :
    (convert_charset_single_column ok column table cs coll st).queries =
      ["ALTER TABLE " ++ table ++ " CHANGE " ++ column.name ++ " " ++ column.name ++ " "
        ++ column.ctype ++ " CHARACTER SET " ++ cs ++ " COLLATE " ++ coll ++ " "
        ++ (if column.nullable = "YES" then "NULL"
            else "NOT NULL DEFAULT " ++ pyStr column.dvalue)] := by
  have hq : (convert_charset_single_column ok column table cs coll st).queries =
      [columnQuery table column cs coll] := by
    unfold convert_charset_single_column
    rw [h1]
    by_cases hok : ok (columnQuery table column cs coll) <;> simp [h1, h2, h3, hok]
  rw [hq]
  unfold columnQuery
  by_cases hnul : column.nullable = "YES" <;>
    simp [hnul, String.intercalate, String.intercalate.go, String.append_assoc]

/-- Witness for C4: a concrete NOT NULL column with a default. -/
theorem claim_c4_witness :
    pyFalsy (⟨"body", "text", "text", some "latin1", some "latin1_swedish_ci", "NO",
        some "x"⟩ : Column).charset = false
    ∧ (convert_charset_single_column (fun _ => true)
        ⟨"body", "text", "text", some "latin1", some "latin1_swedish_ci", "NO", some "x"⟩
        "B" "utf8mb4" "utf8mb4_unicode_520_ci" exampleDb).queries =
      ["ALTER TABLE " ++ "B" ++ " CHANGE " ++ "body" ++ " " ++ "body" ++ " "
        ++ "text" ++ " CHARACTER SET " ++ "utf8mb4" ++ " COLLATE " ++ "utf8mb4_unicode_520_ci"
        ++ " " ++ (if ("NO" : String) = "YES" then "NULL"
            else "NOT NULL DEFAULT " ++ pyStr (some "x"))] :=
  ⟨by decide,
    claim_c4 (fun _ => true)
      ⟨"body", "text", "text", some "latin1", some "latin1_swedish_ci", "NO", some "x"⟩
      "B" "utf8mb4" "utf8mb4_unicode_520_ci" exampleDb (by decide) (by decide) (by decide)⟩

/-! ### Histogram lemmas and the statistics claims -/

theorem sumVals_hincr {α : Type} [DecidableEq α] (h : List (α × Nat)) (a : α) :
    sumVals (hincr h a) = sumVals h + 1 := by
  induction h with
  | nil => rfl
  | cons p t ih =>
    obtain ⟨k, v⟩ := p
    by_cases hk : k = a
    · simp [hincr, hk, sumVals]
      omega
    · simp [hincr, hk, sumVals] at ih ⊢
      omega

theorem hget_hincr_self {α : Type} [DecidableEq α] (h : List (α × Nat)) (a : α) :
    hget (hincr h a) a = hget h a + 1 := by
  induction h with
  | nil => simp [hincr, hget]
  | cons p t ih =>
    obtain ⟨k, v⟩ := p
    by_cases hk : k = a
    · simp [hincr, hget, hk]
    · simp [hincr, hget, hk, ih]

theorem hget_hincr_ne {α : Type} [DecidableEq α] (h : List (α × Nat)) (a b : α)
    (hne : b ≠ a) : hget (hincr h a) b = hget h b := by
  induction h with
  | nil => simp [hincr, hget, Ne.symm hne]
  | cons p t ih =>
    obtain ⟨k, v⟩ := p
    by_cases hk : k = a
    · subst hk
      simp [hincr, hget, Ne.symm hne]
    · by_cases hkb : k = b
      · subst hkb
        simp [hincr, hget, hk]
      · simp [hincr, hget, hk, hkb, ih]

theorem sumVals_foldl {α : Type} [DecidableEq α] (l : List α) :
    ∀ h : List (α × Nat), sumVals (l.foldl hincr h) = sumVals h + l.length := by
  induction l with
  | nil => intro h; simp
  | cons a t ih =>
    intro h
    show sumVals (t.foldl hincr (hincr h a)) = _
    rw [ih (hincr h a), sumVals_hincr]
    simp
    omega

theorem hget_foldl {α : Type} [DecidableEq α] (l : List α) (b : α) :
    ∀ h : List (α × Nat), hget (l.foldl hincr h) b = hget h b + l.count b := by
  induction l with
  | nil => intro h; simp
  | cons a t ih =>
    intro h
    show hget (t.foldl hincr (hincr h a)) b = _
    rw [ih (hincr h a)]
    by_cases hab : b = a
    · rw [hab, hget_hincr_self]
      simp [List.count_cons]
      omega
    · rw [hget_hincr_ne h a b hab]
      have : (a == b) = false := beq_eq_false_iff_ne.mpr (fun he => hab he.symm)
      simp [List.count_cons, this]

theorem statsLoop_spec (st : Database) : ∀ (names : List String) (cc : Nat)
    (ht : List (String × Nat)) (hc : List (Option String × Nat)),
    statsLoop st names cc ht hc =
      (cc + (names.map fun n => (get_columns_of_table st n).length).sum,
       (names.map (tableCharsetByName st)).foldl hincr ht,
       ((names.map fun n =>
         (get_columns_of_table st n).map Column.charset).flatten).foldl hincr hc) := by
  intro names
  induction names with
  | nil => intro cc ht hc; simp [statsLoop]
  | cons n rest ih =>
    intro cc ht hc
    show statsLoop st rest _ _ _ = _
    rw [ih]
    refine congrArg₂ Prod.mk ?_ (congrArg₂ Prod.mk rfl ?_)
    · simp
      omega
    · rw [List.map_cons, List.flatten_cons, List.foldl_append, List.foldl_map]

/-- Counting partition: occurrences of `xa`, of `xb`, and of everything else
add up to the length. -/
theorem count_partition {α : Type} [DecidableEq α] (xa xb : α) (hne : xa ≠ xb) :
    ∀ L : List α, L.count xa + L.count xb +
      L.countP (fun x => decide (x ≠ xa ∧ x ≠ xb)) = L.length := by
  intro L
  induction L with
  | nil => rfl
  | cons x rest ih =>
    by_cases hxa : x = xa
    · subst hxa
      simp [List.count_cons, List.countP_cons, hne, Ne.symm hne] at ih ⊢
      omega
    · by_cases hxb : x = xb
      · subst hxb
        simp [List.count_cons, List.countP_cons, hxa, Ne.symm hne] at ih ⊢
        omega
      · simp [List.count_cons, List.countP_cons, hxa, hxb] at ih ⊢
        omega

/-- C6.  The statistics report derives convertedTables = tableHistogram[target],
missingTables = tableCount − convertedTables, convertedColumns =
columnHistogram[target], missingColumns = columnCount − convertedColumns −
columnHistogram[null]; on the spec's 3-table/5-column scenario it reports
2 / 1 / 2 / 2. -/
theorem claim_c6 :
    (∀ st : Database,
      (update_stats st).convertedTables = hget (update_stats st).charsetTables DEFAULT_CHARSET
      ∧ (update_stats st).missingTables =
          (update_stats st).countTables - (update_stats st).convertedTables
      ∧ (update_stats st).convertedColumns =
          hget (update_stats st).charsetColumns (some DEFAULT_CHARSET)
      ∧ (update_stats st).missingColumns =
          (update_stats st).countColumns - (update_stats st).convertedColumns
            - hget (update_stats st).charsetColumns none)
    ∧ (update_stats statsDb).convertedTables = 2
    ∧ (update_stats statsDb).missingTables = 1
    ∧ (update_stats statsDb).convertedColumns = 2
    ∧ (update_stats statsDb).missingColumns = 2 := by
  refine ⟨fun st => ⟨rfl, rfl, rfl, rfl⟩, ?_, ?_, ?_, ?_⟩ <;> decide

/-- C9.  After the aggregation pass, the table histogram values sum to the
table count, the column histogram values sum to the column count, and the
derived missingColumns counts exactly the columns whose charset is neither the
target nor null. -/
theorem claim_c9 (st : Database) :
    sumVals (update_stats st).charsetTables = (update_stats st).countTables
    ∧ sumVals (update_stats st).charsetColumns = (update_stats st).countColumns
    ∧ (update_stats st).missingColumns =
        (allColumns st).countP fun c =>
          decide (c.charset ≠ some DEFAULT_CHARSET ∧ c.charset ≠ none) := by
  have hloop := statsLoop_spec st (get_tables st) 0 [] []
  have h1 : (update_stats st).charsetTables =
      ((get_tables st).map (tableCharsetByName st)).foldl hincr [] := by
    show (statsLoop st (get_tables st) 0 [] []).2.1 = _
    rw [hloop]
  have h2 : (update_stats st).charsetColumns =
      (((get_tables st).map fun n =>
        (get_columns_of_table st n).map Column.charset).flatten).foldl hincr [] := by
    show (statsLoop st (get_tables st) 0 [] []).2.2 = _
    rw [hloop]
  have hcc : (update_stats st).countColumns =
      0 + ((get_tables st).map fun n => (get_columns_of_table st n).length).sum := by
    show (statsLoop st (get_tables st) 0 [] []).1 = _
    rw [hloop]
  have hLlen : (((get_tables st).map fun n =>
      (get_columns_of_table st n).map Column.charset).flatten).length =
      ((get_tables st).map fun n => (get_columns_of_table st n).length).sum := by
    rw [List.length_flatten, List.map_map]
    exact congrArg List.sum (List.map_congr_left fun n _ => by simp)
  refine ⟨?_, ?_, ?_⟩
  · rw [h1, sumVals_foldl]
    show 0 + _ = (get_tables st).length
    simp
  · rw [h2, sumVals_foldl, hcc, hLlen]
    rfl
  · have hmiss : (update_stats st).missingColumns =
        (update_stats st).countColumns
          - hget (update_stats st).charsetColumns (some DEFAULT_CHARSET)
          - hget (update_stats st).charsetColumns none := rfl
    rw [hmiss, h2, hget_foldl, hget_foldl, hcc]
    have hzero : ∀ a : Option String, hget ([] : List (Option String × Nat)) a = 0 :=
      fun a => rfl
    rw [hzero, hzero]
    have hpart := count_partition (some DEFAULT_CHARSET) (none : Option String)
      (fun h0 => Option.noConfusion h0)
      (((get_tables st).map fun n =>
        (get_columns_of_table st n).map Column.charset).flatten)
    have hmapflat : (((get_tables st).map fun n =>
        (get_columns_of_table st n).map Column.charset).flatten) =
        (allColumns st).map Column.charset := by
      unfold allColumns
      rw [List.map_flatten, List.map_map]
      rfl
    rw [hmapflat] at hpart ⊢
    rw [List.countP_map] at hpart
    have hcomp : ((fun x => decide (x ≠ some DEFAULT_CHARSET ∧ x ≠ none)) ∘ Column.charset) =
        fun c : Column => decide (c.charset ≠ some DEFAULT_CHARSET ∧ c.charset ≠ none) := rfl
    rw [hcomp] at hpart
    have hlen2 : ((allColumns st).map Column.charset).length = (allColumns st).length := by
      simp
    have hlenflat : ((get_tables st).map fun n =>
        (get_columns_of_table st n).length).sum = (allColumns st).length := by
      rw [← hLlen, hmapflat]
      simp
    rw [hlenflat]
    omega

/-! ### Validation claims -/

theorem gd_err : ∀ (a b : ColRecord) (v : VError),
    _get_differences a b = .error v → v = .keyError := by
  intro a
  induction a with
  | nil => intro b v h; simp [_get_differences] at h
  | cons p rest ih =>
    intro b v h
    obtain ⟨key, va⟩ := p
    by_cases h1 : key = "CHARACTER_SET_NAME"
    · simp only [_get_differences, if_pos h1] at h
      exact ih b v h
    · by_cases h2 : key = "COLLATION_NAME"
      · simp only [_get_differences, if_neg h1, if_pos h2] at h
        exact ih b v h
      · by_cases h3 : key = "CHARACTER_OCTET_LENGTH"
        · simp only [_get_differences, if_neg h1, if_neg h2, if_pos h3] at h
          exact ih b v h
        · cases hlk : alookup b key with
          | none =>
            simp [_get_differences, if_neg h1, if_neg h2, if_neg h3, hlk] at h
            simp_all
          | some vb =>
            cases hgd : _get_differences rest b with
            | error e =>
              have he := ih b e hgd
              simp [_get_differences, if_neg h1, if_neg h2, if_neg h3, hlk, hgd] at h
              simp_all
            | ok d =>
              simp [_get_differences, if_neg h1, if_neg h2, if_neg h3, hlk, hgd] at h

theorem cc_err (b : TabState) : ∀ (l : TabState) (v : VError),
    compareColumns b l = .error v → v = .keyError := by
  intro l
  induction l with
  | nil => intro v h; simp [compareColumns] at h
  | cons p rest ih =>
    intro v h
    obtain ⟨column, arec⟩ := p
    cases hlk : alookup b column with
    | none =>
      simp [compareColumns, hlk] at h
      simp_all
    | some brec =>
      cases hgd : _get_differences arec brec with
      | error e =>
        have he := gd_err arec brec e hgd
        simp [compareColumns, hlk, hgd] at h
        simp_all
      | ok comp =>
        cases hcc : compareColumns b rest with
        | error e =>
          have he := ih e hcc
          simp [compareColumns, hlk, hgd, hcc] at h
          simp_all
        | ok r =>
          obtain ⟨u0, alt0, det0⟩ := r
          simp [compareColumns, hlk, hgd, hcc] at h

theorem ct_err (e : Snapshot) : ∀ (s : Snapshot) (v : VError),
    compareTables e s = .error v → v = .keyError := by
  intro s
  induction s with
  | nil => intro v h; simp [compareTables] at h
  | cons p rest ih =>
    intro v h
    obtain ⟨table, a⟩ := p
    cases hcc : compareColumns ((alookup e table).getD []) a with
    | error er =>
      have he := cc_err _ a er hcc
      simp [compareTables, hcc] at h
      simp_all
    | ok r =>
      obtain ⟨u0, alt0, det0⟩ := r
      cases hct : compareTables e rest with
      | error er =>
        have he := ih er hct
        simp [compareTables, hcc, hct] at h
        simp_all
      | ok r2 =>
        obtain ⟨u2, alt2, det2⟩ := r2
        simp [compareTables, hcc, hct] at h

/-- C7.  `compare_states` raises `MissingStateException` exactly when the start
or the end snapshot is unset — with the start-state message checked first —
and, both snapshots being populated, it never raises this error (its outcome is
then a comparison result or a lookup `KeyError`). -/
theorem claim_c7 (startState endState : Option Snapshot) :
    ((∃ msg, compare_states startState endState = .error (.missingState msg)) ↔
      (startState = none ∨ endState = none))
    ∧ (startState = none →
        compare_states startState endState = .error (.missingState
          "No start state stored. Make sure to call generate_start_state"))
    ∧ (∀ s, startState = some s → endState = none →
        compare_states startState endState = .error (.missingState
          "No end state stored. Make sure to call generate_end_state")) := by
  refine ⟨⟨?_, ?_⟩, ?_, ?_⟩
  · rintro ⟨msg, hmsg⟩
    cases startState with
    | none => exact Or.inl rfl
    | some s =>
      cases endState with
      | none => exact Or.inr rfl
      | some e =>
        exfalso
        simp only [compare_states] at hmsg
        cases hct : compareTables e s with
        | error er =>
          rw [hct] at hmsg
          have h1 : er = VError.missingState msg := (Except.error.injEq _ _ ▸ hmsg :)
          have h2 := ct_err e s er hct
          rw [h1] at h2
          exact VError.noConfusion h2
        | ok r =>
          obtain ⟨u, alt, det⟩ := r
          rw [hct] at hmsg
          simp at hmsg
  · rintro (h | h)
    · subst h
      exact ⟨"No start state stored. Make sure to call generate_start_state", rfl⟩
    · subst h
      cases startState with
      | none => exact ⟨"No start state stored. Make sure to call generate_start_state", rfl⟩
      | some s =>
        exact ⟨"No end state stored. Make sure to call generate_end_state", rfl⟩
  · intro h
    subst h
    rfl
  · intro s hs he
    subst hs
    subst he
    rfl

/-- Witness for C7: calling the comparison without a start state raises the
start-state `MissingStateException`. -/
theorem claim_c7_witness :
    ((none : Option Snapshot) = none ∨ (some ([] : Snapshot)) = none)
    ∧ (∃ msg, compare_states none (some ([] : Snapshot)) = .error (.missingState msg))
    ∧ compare_states none (some ([] : Snapshot)) = .error (.missingState
        "No start state stored. Make sure to call generate_start_state") :=
  ⟨Or.inl rfl, (claim_c7 none (some [])).1.mpr (Or.inl rfl),
    (claim_c7 none (some [])).2.1 rfl⟩

/-- What a successful per-table column comparison returns: the unaltered and
altered counters count the start columns by emptiness of their diff, the
details list the nonempty diffs in order, and every start column was found in
the end table with a successfully diffed record. -/
theorem cc_ok_spec (b : TabState) : ∀ (l : TabState) (u alt : Nat)
    (det : List (String × List (String × FieldVal × FieldVal))),
    compareColumns b l = .ok (u, alt, det) →
      u = l.countP (fun q => (colDiffOf b q).isEmpty)
      ∧ alt = l.countP (fun q => !(colDiffOf b q).isEmpty)
      ∧ det = (l.filter fun q => !(colDiffOf b q).isEmpty).map (fun q => (q.1, colDiffOf b q))
      ∧ ∀ q ∈ l, ∃ brec, alookup b q.1 = some brec
          ∧ _get_differences q.2 brec = .ok (colDiffOf b q) := by
  intro l
  induction l with
  | nil =>
    intro u alt det h
    simp only [compareColumns, Except.ok.injEq, Prod.mk.injEq] at h
    obtain ⟨h1, h2, h3⟩ := h
    subst h1; subst h2; subst h3
    exact ⟨rfl, rfl, rfl, fun q hq => absurd hq (List.not_mem_nil q)⟩
  | cons p rest ih =>
    obtain ⟨column, arec⟩ := p
    intro u alt det h
    cases hlk : alookup b column with
    | none => simp [compareColumns, hlk] at h
    | some brec =>
      cases hgd : _get_differences arec brec with
      | error er => simp [compareColumns, hlk, hgd] at h
      | ok comp =>
        cases hcc : compareColumns b rest with
        | error er => simp [compareColumns, hlk, hgd, hcc] at h
        | ok r =>
          obtain ⟨u0, alt0, det0⟩ := r
          obtain ⟨hu0, halt0, hdet0, hmem0⟩ := ih u0 alt0 det0 hcc
          have hcd : colDiffOf b (column, arec) = comp := by
            simp [colDiffOf, hlk, hgd]
          have hmemQ : ∀ q ∈ (column, arec) :: rest, ∃ brec2, alookup b q.1 = some brec2
              ∧ _get_differences q.2 brec2 = .ok (colDiffOf b q) := by
            intro q hq
            rcases List.mem_cons.mp hq with rfl | hq'
            · exact ⟨brec, hlk, by rw [hcd]; exact hgd⟩
            · exact hmem0 q hq'
          simp only [compareColumns, hlk, hgd, hcc] at h
          by_cases hemp : comp.isEmpty = true
          · rw [if_pos hemp] at h
            simp only [Except.ok.injEq, Prod.mk.injEq] at h
            obtain ⟨h1, h2, h3⟩ := h
            subst h1; subst h2; subst h3
            refine ⟨?_, ?_, ?_, hmemQ⟩
            · simp [List.countP_cons, hcd, hemp]
              omega
            · simp [List.countP_cons, hcd, hemp]
              omega
            · simp [List.filter_cons, hcd, hemp, hdet0]
          · rw [if_neg hemp] at h
            simp only [Except.ok.injEq, Prod.mk.injEq] at h
            obtain ⟨h1, h2, h3⟩ := h
            subst h1; subst h2; subst h3
            have hempF : comp.isEmpty = false := Bool.eq_false_iff.mpr hemp
            refine ⟨?_, ?_, ?_, hmemQ⟩
            · simp [List.countP_cons, hcd, hempF]
              omega
            · simp [List.countP_cons, hcd, hempF]
              omega
            · simp [List.filter_cons, hcd, hempF, hdet0]

theorem countP_partition {α : Type} (p : α → Bool) (l : List α) :
    l.countP p + l.countP (fun a => !p a) = l.length := by
  induction l with
  | nil => rfl
  | cons x t ih =>
    rw [List.countP_cons, List.countP_cons]
    cases hx : p x <;> simp [hx] <;> omega

/-- What a successful snapshot comparison returns: counters summed per start
table over the start columns, details drawn only from start tables/columns,
and every start column found in the end snapshot. -/
theorem ct_ok_spec (e : Snapshot) : ∀ (s : Snapshot) (u alt : Nat) (det : Details),
    compareTables e s = .ok (u, alt, det) →
      u + alt = (s.map fun p => p.2.length).sum
      ∧ u = (s.map fun p =>
          p.2.countP fun q => (colDiffOf ((alookup e p.1).getD []) q).isEmpty).sum
      ∧ alt = (s.map fun p =>
          p.2.countP fun q => !(colDiffOf ((alookup e p.1).getD []) q).isEmpty).sum
      ∧ (∀ t cdet, (t, cdet) ∈ det → ∃ cols, (t, cols) ∈ s ∧
          ∀ c comp, (c, comp) ∈ cdet → ∃ arec, (c, arec) ∈ cols)
      ∧ ∀ t cols, (t, cols) ∈ s → ∀ c arec, (c, arec) ∈ cols →
          ∃ brec, alookup ((alookup e t).getD []) c = some brec := by
  intro s
  induction s with
  | nil =>
    intro u alt det h
    simp only [compareTables, Except.ok.injEq, Prod.mk.injEq] at h
    obtain ⟨h1, h2, h3⟩ := h
    subst h1; subst h2; subst h3
    exact ⟨rfl, rfl, rfl,
      fun t cdet hc => absurd hc (List.not_mem_nil (t, cdet)),
      fun t cols hc => absurd hc (List.not_mem_nil (t, cols))⟩
  | cons p rest ih =>
    obtain ⟨table, a⟩ := p
    intro u alt det h
    cases hcc : compareColumns ((alookup e table).getD []) a with
    | error er => simp [compareTables, hcc] at h
    | ok r =>
      obtain ⟨u0, alt0, det0⟩ := r
      cases hct : compareTables e rest with
      | error er => simp [compareTables, hcc, hct] at h
      | ok r2 =>
        obtain ⟨u2, alt2, det2⟩ := r2
        obtain ⟨hsum2, hu2, halt2, hdet2, hmem2⟩ := ih u2 alt2 det2 hct
        obtain ⟨hu0, halt0, hdet0, hmemA⟩ := cc_ok_spec _ a u0 alt0 det0 hcc
        simp only [compareTables, hcc, hct, Except.ok.injEq, Prod.mk.injEq] at h
        obtain ⟨h1, h2, h3⟩ := h
        subst h1; subst h2; subst h3
        have hpart := countP_partition
          (fun q => (colDiffOf ((alookup e table).getD []) q).isEmpty) a
        refine ⟨?_, ?_, ?_, ?_, ?_⟩
        · simp only [List.map_cons, List.sum_cons]
          have : a.countP (fun q => !(colDiffOf ((alookup e table).getD []) q).isEmpty) =
              alt0 := halt0.symm
          omega
        · simp only [List.map_cons, List.sum_cons]
          omega
        · simp only [List.map_cons, List.sum_cons]
          omega
        · intro t cdet hmem
          by_cases hde : det0.isEmpty = true
          · rw [if_pos hde] at hmem
            rcases hdet2 t cdet hmem with ⟨cols, hcols, hall⟩
            exact ⟨cols, List.mem_cons_of_mem _ hcols, hall⟩
          · rw [if_neg hde] at hmem
            rcases List.mem_cons.mp hmem with heq | hmem'
            · have ht : t = table := (Prod.mk.injEq _ _ _ _ ▸ heq).1
              have hcd : cdet = det0 := (Prod.mk.injEq _ _ _ _ ▸ heq).2
              refine ⟨a, by rw [ht]; exact List.mem_cons_self _ _, ?_⟩
              intro c comp hcomp
              rw [hcd, hdet0] at hcomp
              rcases List.mem_map.mp hcomp with ⟨q, hqf, hqe⟩
              have hqa : q ∈ a := List.mem_of_mem_filter hqf
              have hc : q.1 = c := (Prod.mk.injEq _ _ _ _ ▸ hqe).1
              exact ⟨q.2, by rw [← hc]; exact hqa⟩
            · rcases hdet2 t cdet hmem' with ⟨cols, hcols, hall⟩
              exact ⟨cols, List.mem_cons_of_mem _ hcols, hall⟩
        · intro t cols hmem c arec hca
          rcases List.mem_cons.mp hmem with heq | hmem'
          · have ht : table = t := (Prod.mk.injEq _ _ _ _ ▸ heq.symm).1
            have hcl : a = cols := (Prod.mk.injEq _ _ _ _ ▸ heq.symm).2
            rcases hmemA (c, arec) (hcl ▸ hca) with ⟨brec, hbrec, _⟩
            exact ⟨brec, by rw [← ht]; exact hbrec⟩
          · exact hmem2 t cols hmem' c arec hca

/-- Membership characterization of a successful record diff: an entry appears
for key `k` with values `(bef, aft)` exactly when `k` is a non-ignored key of
the before-record whose after-value differs. -/
theorem gd_mem_spec : ∀ (a b : ColRecord) (d : List (String × FieldVal × FieldVal)),
    _get_differences a b = .ok d →
    ∀ k bef aft, ((k, bef, aft) ∈ d ↔
      (k ∉ IGNORED_FIELDS ∧ (k, bef) ∈ a ∧ alookup b k = some aft ∧ bef ≠ aft)) := by
  intro a
  induction a with
  | nil =>
    intro b d h k bef aft
    simp only [_get_differences, Except.ok.injEq] at h
    subst h
    simp
  | cons p rest ih =>
    obtain ⟨key, va⟩ := p
    intro b d h k bef aft
    by_cases h1 : key = "CHARACTER_SET_NAME"
    · rw [_get_differences, if_pos h1] at h
      rw [ih b d h k bef aft]
      constructor
      · rintro ⟨hk, hm, hlk, hne⟩
        exact ⟨hk, List.mem_cons_of_mem _ hm, hlk, hne⟩
      · rintro ⟨hk, hm, hlk, hne⟩
        rcases List.mem_cons.mp hm with heq | hm'
        · exfalso
          have : k = key := (Prod.mk.injEq _ _ _ _ ▸ heq).1
          exact hk (by rw [this, h1]; simp [IGNORED_FIELDS])
        · exact ⟨hk, hm', hlk, hne⟩
    · by_cases h2 : key = "COLLATION_NAME"
      · rw [_get_differences, if_neg h1, if_pos h2] at h
        rw [ih b d h k bef aft]
        constructor
        · rintro ⟨hk, hm, hlk, hne⟩
          exact ⟨hk, List.mem_cons_of_mem _ hm, hlk, hne⟩
        · rintro ⟨hk, hm, hlk, hne⟩
          rcases List.mem_cons.mp hm with heq | hm'
          · exfalso
            have : k = key := (Prod.mk.injEq _ _ _ _ ▸ heq).1
            exact hk (by rw [this, h2]; simp [IGNORED_FIELDS])
          · exact ⟨hk, hm', hlk, hne⟩
      · by_cases h3 : key = "CHARACTER_OCTET_LENGTH"
        · rw [_get_differences, if_neg h1, if_neg h2, if_pos h3] at h
          rw [ih b d h k bef aft]
          constructor
          · rintro ⟨hk, hm, hlk, hne⟩
            exact ⟨hk, List.mem_cons_of_mem _ hm, hlk, hne⟩
          · rintro ⟨hk, hm, hlk, hne⟩
            rcases List.mem_cons.mp hm with heq | hm'
            · exfalso
              have : k = key := (Prod.mk.injEq _ _ _ _ ▸ heq).1
              exact hk (by rw [this, h3]; simp [IGNORED_FIELDS])
            · exact ⟨hk, hm', hlk, hne⟩
        · have hkeyIGN : key ∉ IGNORED_FIELDS := by
            simp [IGNORED_FIELDS, h1, h2, h3]
          cases hlk : alookup b key with
          | none =>
            simp only [_get_differences, if_neg h1, if_neg h2, if_neg h3, hlk] at h
            exact absurd h (by simp)
          | some vb =>
            cases hgd : _get_differences rest b with
            | error er =>
              simp only [_get_differences, if_neg h1, if_neg h2, if_neg h3, hlk, hgd] at h
              exact absurd h (by simp)
            | ok d0 =>
              simp only [_get_differences, if_neg h1, if_neg h2, if_neg h3, hlk, hgd] at h
              have hih := ih b d0 hgd k bef aft
              by_cases hne : va ≠ vb
              · rw [if_pos hne] at h
                have hd : d = (key, va, vb) :: d0 := ((Except.ok.injEq _ _ ▸ h :)).symm
                subst hd
                constructor
                · intro hmem
                  rcases List.mem_cons.mp hmem with heq | hm'
                  · have hk : k = key := (Prod.mk.injEq _ _ _ _ ▸ heq).1
                    have hba : (bef, aft) = (va, vb) := (Prod.mk.injEq _ _ _ _ ▸ heq).2
                    have hbef : bef = va := (Prod.mk.injEq _ _ _ _ ▸ hba).1
                    have haft : aft = vb := (Prod.mk.injEq _ _ _ _ ▸ hba).2
                    subst hk; subst hbef; subst haft
                    exact ⟨hkeyIGN, List.mem_cons_self _ _, hlk, hne⟩
                  · rcases hih.mp hm' with ⟨hk, hm, hlkk, hne2⟩
                    exact ⟨hk, List.mem_cons_of_mem _ hm, hlkk, hne2⟩
                · rintro ⟨hk, hm, hlkk, hne2⟩
                  rcases List.mem_cons.mp hm with heq | hm'
                  · have hkk : k = key := (Prod.mk.injEq _ _ _ _ ▸ heq).1
                    have hbef : bef = va := (Prod.mk.injEq _ _ _ _ ▸ heq).2
                    have haft : aft = vb := by
                      rw [hkk, hlk] at hlkk
                      exact (Option.some.injEq _ _ ▸ hlkk :).symm
                    subst hkk; subst hbef; subst haft
                    exact List.mem_cons_self _ _
                  · exact List.mem_cons_of_mem _ (hih.mpr ⟨hk, hm', hlkk, hne2⟩)
              · rw [if_neg hne] at h
                have hd : d = d0 := ((Except.ok.injEq _ _ ▸ h :)).symm
                subst hd
                rw [hih]
                constructor
                · rintro ⟨hk, hm, hlkk, hne2⟩
                  exact ⟨hk, List.mem_cons_of_mem _ hm, hlkk, hne2⟩
                · rintro ⟨hk, hm, hlkk, hne2⟩
                  rcases List.mem_cons.mp hm with heq | hm'
                  · exfalso
                    have hkk : k = key := (Prod.mk.injEq _ _ _ _ ▸ heq).1
                    have hbef : bef = va := (Prod.mk.injEq _ _ _ _ ▸ heq).2
                    have hvb : va = vb := Decidable.not_not.mp hne
                    rw [hkk, hlk] at hlkk
                    have haft : vb = aft := (Option.some.injEq _ _ ▸ hlkk :)
                    exact hne2 (by rw [hbef, hvb, haft])
                  · exact ⟨hk, hm', hlkk, hne2⟩

/-- C8.  The validation diff ignores exactly CHARACTER_SET_NAME,
COLLATION_NAME and CHARACTER_OCTET_LENGTH: a successful diff contains an entry
`(k, before, after)` iff `k` is a key of the before-record outside those three
whose after-value differs, with the before/after values recorded; and in the
column comparison, the unaltered/altered counters count the columns whose diff
is empty resp. nonempty (altered ⟺ at least one anomaly). -/
theorem claim_c8 (a b : ColRecord) (d : List (String × FieldVal × FieldVal))
    (h : _get_differences a b = .ok d) :
    (∀ k bef aft, ((k, bef, aft) ∈ d ↔
      (k ∉ IGNORED_FIELDS ∧ (k, bef) ∈ a ∧ alookup b k = some aft ∧ bef ≠ aft)))
    ∧ ∀ (bt l : TabState) (u alt : Nat)
        (det : List (String × List (String × FieldVal × FieldVal))),
        compareColumns bt l = .ok (u, alt, det) →
          u = l.countP (fun q => (colDiffOf bt q).isEmpty)
          ∧ alt = l.countP (fun q => !(colDiffOf bt q).isEmpty) := by
  refine ⟨gd_mem_spec a b d h, ?_⟩
  intro bt l u alt det hcc
  obtain ⟨hu, halt, _, _⟩ := cc_ok_spec bt l u alt det hcc
  exact ⟨hu, halt⟩

/-- Witness for C8: the spec's diff example — expected-field changes produce no
anomaly, and a changed COLUMN_DEFAULT produces exactly its before/after entry. -/
theorem claim_c8_witness :
    _get_differences recBefore recAfter = .ok []
    ∧ ("COLUMN_DEFAULT", FieldVal.str "x", FieldVal.str "y") ∈
        [("COLUMN_DEFAULT", FieldVal.str "x", FieldVal.str "y")] :=
  ⟨rfl,
    ((claim_c8 recBefore recAfter2 [("COLUMN_DEFAULT", .str "x", .str "y")] rfl).1
        "COLUMN_DEFAULT" (.str "x") (.str "y")).mpr
      ⟨by decide, by decide, rfl, by decide⟩⟩

/-- C10.  `compare_states` iterates only over the start snapshot: on success
the summary counts exactly the start columns and the details refer only to
start tables/columns, success requires every start column to be present in the
end snapshot, and a start column absent from the end snapshot makes the whole
comparison fail with the lookup `KeyError` instead of being reported. -/
theorem claim_c10 (s e : Snapshot) :
    (∀ r, compare_states (some s) (some e) = .ok r →
        r.unaltered + r.altered = (s.map fun p => p.2.length).sum
        ∧ (∀ t cdet, (t, cdet) ∈ r.details → ∃ cols, (t, cols) ∈ s ∧
            ∀ c comp, (c, comp) ∈ cdet → ∃ arec, (c, arec) ∈ cols)
        ∧ ∀ t cols, (t, cols) ∈ s → ∀ c arec, (c, arec) ∈ cols →
            ∃ brec, alookup ((alookup e t).getD []) c = some brec)
    ∧ ((∃ t cols c arec, (t, cols) ∈ s ∧ (c, arec) ∈ cols ∧
          alookup ((alookup e t).getD []) c = none) →
        compare_states (some s) (some e) = .error .keyError) := by
  constructor
  · intro r hr
    cases hct : compareTables e s with
    | error er =>
      exfalso
      simp only [compare_states, hct] at hr
      exact absurd hr (by simp)
    | ok r0 =>
      obtain ⟨u, alt, det⟩ := r0
      obtain ⟨hsum, _, _, hdet, hmem⟩ := ct_ok_spec e s u alt det hct
      simp only [compare_states, hct] at hr
      have hru : r = ⟨u, alt, det⟩ := ((Except.ok.injEq _ _ ▸ hr :)).symm
      subst hru
      exact ⟨hsum, hdet, hmem⟩
  · rintro ⟨t, cols, c, arec, hmem, hca, hnone⟩
    cases hct : compareTables e s with
    | error er =>
      have := ct_err e s er hct
      subst this
      simp [compare_states, hct]
    | ok r0 =>
      obtain ⟨u, alt, det⟩ := r0
      obtain ⟨_, _, _, _, hmemall⟩ := ct_ok_spec e s u alt det hct
      rcases hmemall t cols hmem c arec hca with ⟨brec, hbrec⟩
      rw [hnone] at hbrec
      exact absurd hbrec (by simp)

/-- Witness for C10: with the column present the comparison succeeds and counts
the single start column; with the column missing from the end snapshot it
fails with `KeyError`. -/
theorem claim_c10_witness :
    ((1 : Nat) + 0 = (snapStart.map fun p => p.2.length).sum)
    ∧ compare_states (some snapStart) (some snapEndMissing) = .error .keyError :=
  ⟨((claim_c10 snapStart snapEndOk).1 ⟨1, 0, []⟩ rfl).1,
    (claim_c10 snapStart snapEndMissing).2
      ⟨"T", [("c", recBefore)], "c", recBefore,
        List.mem_singleton.mpr rfl, List.mem_singleton.mpr rfl, rfl⟩⟩

end DbConvert

